import Mathlib

/-!
Shallow embedding of the database reconciliation and merge engine of
`app/corrected_smart_merger.py` (class `CorrectedSmartDatabaseMerger`).

Modelling conventions:
* A SQLite table is a list of rows.  Rows of the primary `quotes` table are
  records; rows of the generic dependent tables are association lists from
  column name to value, mirroring `sqlite3.Row` access by column name.
* SQLite `DATETIME` strings compare lexicographically, which coincides with
  chronological order for the ISO format the application writes; we model a
  timestamp as `Nat` and a nullable timestamp as `Option Nat` (a SQL `NULL`
  arrives in Python as `None`, which is falsy in `updated_at or created_at`).
* Synthetic row ids assigned by SQLite (`INTEGER PRIMARY KEY AUTOINCREMENT`)
  are positive integers; we model them as `Nat`.  `cursor.lastrowid` on the
  freshly created, initially empty output table is modelled as
  `length of rows already inserted + 1`.
* Python exceptions are modelled with `Except String`; a `for` loop whose body
  may raise is modelled as a recursive function returning `Except`.
-/

/-- Association list lookup by key, modelling Python `dict` access. -/
def alookup {β : Type} (k : String) : List (String × β) → Option β
  | [] => none
  | (k', v) :: m => if k' = k then some v else alookup k m

/-- Key membership test for an association list. -/
def hasKey {β : Type} (k : String) : List (String × β) → Bool
  | [] => false
  | (k', _) :: m => if k' = k then true else hasKey k m

/-- Python `dict` assignment `d[k] = v`: replace in place if the key exists
(keeping its position, as Python dicts do), otherwise append. -/
def upsert {β : Type} (m : List (String × β)) (k : String) (v : β) : List (String × β) :=
  if hasKey k m then m.map (fun p => if p.1 = k then (k, v) else p) else m ++ [(k, v)]

/-- Decimal digit character. -/
def digitChar (d : Nat) : Char :=
  match d with
  | 0 => '0' | 1 => '1' | 2 => '2' | 3 => '3' | 4 => '4'
  | 5 => '5' | 6 => '6' | 7 => '7' | 8 => '8' | _ => '9'

/-- Fuel-driven worker for `digitsRev`; the fuel `n` itself always suffices,
and structural recursion on the fuel keeps the function kernel-reducible. -/
def digitsRevAux : Nat → Nat → List Nat
  | 0, n => [n % 10]
  | fuel + 1, n => if n < 10 then [n] else n % 10 :: digitsRevAux fuel (n / 10)

/-- Little-endian list of decimal digits of a natural number. -/
def digitsRev (n : Nat) : List Nat :=
  digitsRevAux n n

/-- Value of a little-endian decimal digit list (left inverse of `digitsRev`). -/
def ofDigitsRev : List Nat → Nat
  | [] => 0
  | d :: ds => d + 10 * ofDigitsRev ds

/-- Decimal rendering of a natural number, modelling Python `str(n)` /
`f"{n}"` for a non-negative integer. -/
def natStr (n : Nat) : String :=
  ⟨((digitsRev n).map digitChar).reverse⟩

/-- Decimal rendering of an integer, modelling Python `str(i)` / `f"{i}"`. -/
def intStr : Int → String
  | .ofNat n => natStr n
  | .negSucc n => "-" ++ natStr (n + 1)

/-- A SQLite value as seen from Python: integer, text, or NULL. -/
inductive Val where
  | int (i : Int)
  | text (s : String)
  | null
deriving Repr, DecidableEq

/-- Rendering of a SQLite value inside a Python f-string (`f"..{v}.."`). -/
def pyStr : Val → String
  | .int i => intStr i
  | .text s => s
  | .null => "None"

/-- A row of the `quotes` table (schema from `app/db.py`): synthetic id plus
the eleven columns the merger copies.  Free-text attributes are opaque
values; `quote_no` is the business key. -/
structure QuoteRow where
  id : Nat
  customer : Val
  quote_no : String
  description : Val
  sales_rep : Val
  project_sheet_url : Val
  mpsf_link : Val
  folder_link : Val
  method_link : Val
  hidden : Val
  created_at : Nat
  updated_at : Option Nat
deriving Repr, DecidableEq

/-- Projection of a quote row produced by
`SELECT id, quote_no, updated_at, created_at FROM quotes` in
`analyze_quote_overlaps` (and by the loser re-query in `merge_quotes`,
which selects `id, quote_no`; carrying the two timestamps along there is
harmless since they are unused). -/
structure QuoteProj where
  id : Nat
  quote_no : String
  updated_at : Option Nat
  created_at : Nat
deriving Repr, DecidableEq

/-- Projection of one row. -/
def projOf (r : QuoteRow) : QuoteProj :=
  ⟨r.id, r.quote_no, r.updated_at, r.created_at⟩

/-- The dict comprehension `{row['quote_no']: dict(row) for row in fetchall()}`:
an insertion-ordered map from business key to (projected) row, later rows
overwriting earlier ones with the same key. -/
def quotesProjDict (db : List QuoteRow) : List (String × QuoteProj) :=
  db.foldl (fun d r => upsert d r.quote_no (projOf r)) []

/-- Which of the two source databases a row came from. -/
inductive Origin where
  | main
  | copy
deriving Repr, DecidableEq

/-- The Python string rendering of an `Origin` value as used in dict keys and
in the `('main', main_conn), ('copy', copy_conn)` iteration. -/
def origName : Origin → String
  | .main => "main"
  | .copy => "copy"

/-- The origin opposite to the given one (the loser's side). -/
def otherOrigin : Origin → Origin
  | .main => .copy
  | .copy => .main

/-- The connection selection `main_conn if x == 'main' else copy_conn`. -/
def originDB (mainDB copyDB : List QuoteRow) : Origin → List QuoteRow
  | .main => mainDB
  | .copy => copyDB

/-- One entry of the `quote_decisions` dict built by
`analyze_quote_overlaps`: classification, chosen winner, and the winner's
projected row. -/
structure Decision where
  status : String
  winner : Origin
  winner_data : QuoteProj
deriving Repr, DecidableEq

/-- Winner selection for one overlapping business key
(`corrected_smart_merger.py` lines 71-88): each side's effective timestamp is
`updated_at or created_at`, and the copy side wins exactly when its effective
timestamp is strictly greater. -/
def overlapDecision (mq cq : QuoteProj) : Decision :=
  if cq.updated_at.getD cq.created_at > mq.updated_at.getD mq.created_at then
    ⟨"overlapping", .copy, cq⟩
  else
    ⟨"overlapping", .main, mq⟩

/-- The set `main_quotes.keys() & copy_quotes.keys()` of overlapping business
keys, represented as a list in main-dict order. -/
def overlappingKeys (mainDB copyDB : List QuoteRow) : List String :=
  ((quotesProjDict mainDB).map Prod.fst).filter
    (fun k => ((quotesProjDict copyDB).map Prod.fst).contains k)

/-- The set of business keys unique to the main database. -/
def mainOnlyKeys (mainDB copyDB : List QuoteRow) : List String :=
  ((quotesProjDict mainDB).map Prod.fst).filter
    (fun k => ! ((quotesProjDict copyDB).map Prod.fst).contains k)

/-- The set of business keys unique to the copy database. -/
def copyOnlyKeys (mainDB copyDB : List QuoteRow) : List String :=
  ((quotesProjDict copyDB).map Prod.fst).filter
    (fun k => ! ((quotesProjDict mainDB).map Prod.fst).contains k)

/-- Embedding of `CorrectedSmartDatabaseMerger.analyze_quote_overlaps`:
classify every business key seen in either source and build the
`quote_decisions` dict.  The three groups have pairwise disjoint keys, so the
Python dict is faithfully represented by concatenating the three groups (set
iteration order within a group is arbitrary in Python; we fix the dict
insertion order as representative). -/
def analyze_quote_overlaps (mainDB copyDB : List QuoteRow) : List (String × Decision) :=
  let mainQuotes := quotesProjDict mainDB
  let copyQuotes := quotesProjDict copyDB
  ((overlappingKeys mainDB copyDB).filterMap (fun k =>
      match alookup k mainQuotes, alookup k copyQuotes with
      | some mq, some cq => some (k, overlapDecision mq cq)
      | _, _ => none))
    ++ ((mainOnlyKeys mainDB copyDB).filterMap (fun k =>
      (alookup k mainQuotes).map (fun mq => (k, ⟨"main_only", .main, mq⟩))))
    ++ ((copyOnlyKeys mainDB copyDB).filterMap (fun k =>
      (alookup k copyQuotes).map (fun cq => (k, ⟨"copy_only", .copy, cq⟩))))

/-- One value of the `quote_id_mapping` dict built by `merge_quotes`. -/
structure MapVal where
  new_id : Nat
  quote_no : String
  is_winner : Bool
deriving Repr, DecidableEq

/-- The `quote_id_mapping` dict: string key `f"{origin}_{old_id}"` to
new-id record. -/
abbrev IdMap := List (String × MapVal)

/-- The dict key `f"{origin}_{old_id}"`. -/
def mapKey (o : Origin) (oldId : Nat) : String :=
  origName o ++ "_" ++ natStr oldId

/-- A row inserted into the output `quotes` table: the eleven explicitly
listed columns of the INSERT in `merge_quotes`; the fresh synthetic id is
the row's 1-based position in the output table. -/
structure OutQuoteRow where
  customer : Val
  quote_no : String
  description : Val
  sales_rep : Val
  project_sheet_url : Val
  mpsf_link : Val
  folder_link : Val
  method_link : Val
  hidden : Val
  created_at : Nat
  updated_at : Option Nat
deriving Repr, DecidableEq

/-- The output row built from a full source row by the INSERT in
`merge_quotes` (every column except `id` copied). -/
def insertedQuote (q : QuoteRow) : OutQuoteRow :=
  ⟨q.customer, q.quote_no, q.description, q.sales_rep, q.project_sheet_url,
   q.mpsf_link, q.folder_link, q.method_link, q.hidden, q.created_at, q.updated_at⟩

/-- `SELECT * FROM quotes WHERE id = ?` followed by `fetchone()`: the first
row with the given id, if any. -/
def findById (db : List QuoteRow) (i : Nat) : Option QuoteRow :=
  db.find? (fun r => r.id == i)

/-- Mutable state of the `merge_quotes` loop: output rows inserted so far,
the `quote_id_mapping` dict, and the two counters
`quotes_merged` / `quotes_deduplicated`. -/
structure MergeQuotesState where
  outQuotes : List OutQuoteRow
  mapping : IdMap
  merged : Nat
  dedup : Nat
deriving Repr, DecidableEq

/-- Body of the `for quote_no, decision in quote_decisions.items()` loop in
`merge_quotes`.  Fetch the full winning row by id (a missing row makes the
subsequent subscription of `None` raise, modelled as `.error`), insert it,
record the winner's mapping, and for an overlapping key also look the loser
up by business key and record the loser's mapping, counting it as
deduplicated; a failed loser lookup is silently skipped. -/
def mergeQuoteStep (mainDB copyDB : List QuoteRow) (st : MergeQuotesState)
    (kv : String × Decision) : Except String MergeQuotesState :=
  let quoteNo := kv.1
  let d := kv.2
  let oldId := d.winner_data.id
  let conn := originDB mainDB copyDB d.winner
  match findById conn oldId with
  | none => .error "TypeError: NoneType object is not subscriptable"
  | some fullQuote =>
    let newId := st.outQuotes.length + 1
    let outQuotes := st.outQuotes ++ [insertedQuote fullQuote]
    let mapping := upsert st.mapping (mapKey d.winner oldId) ⟨newId, quoteNo, true⟩
    if d.status = "overlapping" then
      let loser := otherOrigin d.winner
      let loserQuotes := quotesProjDict (originDB mainDB copyDB loser)
      match alookup quoteNo loserQuotes with
      | some lq =>
        .ok ⟨outQuotes, upsert mapping (mapKey loser lq.id) ⟨newId, quoteNo, false⟩,
             st.merged + 1, st.dedup + 1⟩
      | none => .ok ⟨outQuotes, mapping, st.merged + 1, st.dedup⟩
    else
      .ok ⟨outQuotes, mapping, st.merged + 1, st.dedup⟩

/-- The `merge_quotes` loop over the decision list. -/
def mergeQuotesGo (mainDB copyDB : List QuoteRow) (st : MergeQuotesState) :
    List (String × Decision) → Except String MergeQuotesState
  | [] => .ok st
  | kv :: rest =>
    match mergeQuoteStep mainDB copyDB st kv with
    | .error e => .error e
    | .ok st' => mergeQuotesGo mainDB copyDB st' rest

/-- Embedding of `CorrectedSmartDatabaseMerger.merge_quotes`. -/
def merge_quotes (mainDB copyDB : List QuoteRow)
    (decisions : List (String × Decision)) : Except String MergeQuotesState :=
  mergeQuotesGo mainDB copyDB ⟨[], [], 0, 0⟩ decisions

/-- A row of a generic dependent table as fetched with `SELECT *`: an
association list from column name to value (access `row[col]` by name). -/
abbrev RelRow := List (String × Val)

/-- Building the `values` list of the dependent-table INSERT: one value per
introspected column, the `quote_id` column replaced by the remapped new id,
every other column read from the source row by name (`none` models the
exception Python raises on a missing column). -/
def buildValues (row : RelRow) (newId : Nat) : List String → Option (List Val)
  | [] => some []
  | c :: cs =>
    if c = "quote_id" then
      (buildValues row newId cs).map (fun vs => Val.int (Int.ofNat newId) :: vs)
    else
      match alookup c row with
      | none => none
      | some v => (buildValues row newId cs).map (fun vs => v :: vs)

/-- Mutable state of the `merge_related_table` loops: rows inserted into the
output table, and the `records_imported` / `records_deduplicated` counters. -/
structure RelState where
  out : List RelRow
  imported : Nat
  dedup : Nat
deriving Repr, DecidableEq

/-- Body of the row loop of `merge_related_table`: build the dict key
`f"{db_name}_{row['quote_id']}"` (a missing `quote_id` column raises), look
it up in `quote_id_mapping`; if absent skip silently, if present import the
row (for a winner) pairing the introspected column names with the built
values, or count it as deduplicated (for a loser). -/
def relRowStep (dbName : String) (columns : List String) (mapping : IdMap)
    (st : RelState) (row : RelRow) : Except String RelState :=
  match alookup "quote_id" row with
  | none => .error "IndexError: No item with that key"
  | some qv =>
    match alookup (dbName ++ "_" ++ pyStr qv) mapping with
    | none => .ok st
    | some info =>
      if info.is_winner then
        match buildValues row info.new_id columns with
        | none => .error "IndexError: No item with that key"
        | some vals =>
          .ok ⟨st.out ++ [columns.zip vals], st.imported + 1, st.dedup⟩
      else
        .ok ⟨st.out, st.imported, st.dedup + 1⟩

/-- The row loop of `merge_related_table` over one source's rows. -/
def mergeRelGo (dbName : String) (columns : List String) (mapping : IdMap)
    (st : RelState) : List RelRow → Except String RelState
  | [] => .ok st
  | row :: rest =>
    match relRowStep dbName columns mapping st row with
    | .error e => .error e
    | .ok st' => mergeRelGo dbName columns mapping st' rest

/-- Embedding of `CorrectedSmartDatabaseMerger.merge_related_table`:
`columns` is the introspected output-schema column list with `id` removed
(`PRAGMA table_info` filtered by `col[1] != 'id'`); rows of the main source
are processed first, then rows of the copy source. -/
def merge_related_table (columns : List String) (mainRows copyRows : List RelRow)
    (mapping : IdMap) : Except String RelState :=
  match mergeRelGo "main" columns mapping ⟨[], 0, 0⟩ mainRows with
  | .error e => .error e
  | .ok st => mergeRelGo "copy" columns mapping st copyRows

/-- Modelled from the spec (§4.4 of the specification): the same value
construction but with the foreign-key column name supplied as the parameter
`fkCol`, as the spec's guarantee "the foreign-key column name must be
supplied per table" describes. -/
def buildValuesFk (fkCol : String) (row : RelRow) (newId : Nat) :
    List String → Option (List Val)
  | [] => some []
  | c :: cs =>
    if c = fkCol then
      (buildValuesFk fkCol row newId cs).map (fun vs => Val.int (Int.ofNat newId) :: vs)
    else
      match alookup c row with
      | none => none
      | some v => (buildValuesFk fkCol row newId cs).map (fun vs => v :: vs)

/-- Modelled from the spec (§4.4): the per-row step of the dependent-table
merge with the foreign-key column name supplied as a parameter. -/
def relRowStepFk (fkCol : String) (dbName : String) (columns : List String)
    (mapping : IdMap) (st : RelState) (row : RelRow) : Except String RelState :=
  match alookup fkCol row with
  | none => .error "IndexError: No item with that key"
  | some qv =>
    match alookup (dbName ++ "_" ++ pyStr qv) mapping with
    | none => .ok st
    | some info =>
      if info.is_winner then
        match buildValuesFk fkCol row info.new_id columns with
        | none => .error "IndexError: No item with that key"
        | some vals =>
          .ok ⟨st.out ++ [columns.zip vals], st.imported + 1, st.dedup⟩
      else
        .ok ⟨st.out, st.imported, st.dedup + 1⟩

/-- Modelled from the spec (§4.4): the row loop with a parametric
foreign-key column name. -/
def mergeRelGoFk (fkCol : String) (dbName : String) (columns : List String)
    (mapping : IdMap) (st : RelState) : List RelRow → Except String RelState
  | [] => .ok st
  | row :: rest =>
    match relRowStepFk fkCol dbName columns mapping st row with
    | .error e => .error e
    | .ok st' => mergeRelGoFk fkCol dbName columns mapping st' rest

/-- Modelled from the spec (§4.4): the dependent-table merge with the
foreign-key column name supplied as a per-table parameter. -/
def merge_related_table_fk (fkCol : String) (columns : List String)
    (mainRows copyRows : List RelRow) (mapping : IdMap) : Except String RelState :=
  match mergeRelGoFk fkCol "main" columns mapping ⟨[], 0, 0⟩ mainRows with
  | .error e => .error e
  | .ok st => mergeRelGoFk fkCol "copy" columns mapping st copyRows

/-- Introspected non-id columns of the `tasks` table (schema `app/db.py`). -/
def tasksColumns : List String := ["quote_id", "label", "done", "is_separator"]

/-- Introspected non-id columns of the `vendor_quotes` table. -/
def vendorQuotesColumns : List String :=
  ["quote_id", "type", "vendor", "requested", "entered", "status", "notes", "date"]

/-- Introspected non-id columns of the `notes` table. -/
def notesColumns : List String := ["quote_id", "content", "created_at"]

/-- Introspected non-id columns of the `events` table. -/
def eventsColumns : List String :=
  ["quote_id", "description", "past", "present", "created_at"]

/-- A row of the `default_tasks` table in a source database. -/
structure DefaultTaskRow where
  id : Nat
  label : Val
  sort_order : Val
  is_separator : Val
  created_at : Val
deriving Repr, DecidableEq

/-- A row inserted into the output `default_tasks` table (the four columns
of the INSERT in `execute_merge`). -/
structure OutDefaultTaskRow where
  label : Val
  sort_order : Val
  is_separator : Val
  created_at : Val
deriving Repr, DecidableEq

/-- One source database: the tables `execute_merge` reads. -/
structure SourceDB where
  quotes : List QuoteRow
  tasks : List RelRow
  vendor_quotes : List RelRow
  notes : List RelRow
  events : List RelRow
  default_tasks : List DefaultTaskRow
deriving Repr, DecidableEq

/-- The output database produced by a committed merge run. -/
structure MergedDB where
  quotes : List OutQuoteRow
  tasks : List RelRow
  vendor_quotes : List RelRow
  notes : List RelRow
  events : List RelRow
  default_tasks : List OutDefaultTaskRow
deriving Repr, DecidableEq

/-- The output database right after schema cloning: every table empty. -/
def emptyMergedDB : MergedDB := ⟨[], [], [], [], [], []⟩

/-- Embedding of the `try` block of
`CorrectedSmartDatabaseMerger.execute_merge`: analyze overlaps, merge
quotes, merge the four dependent tables with the introspected column lists
of the schema cloned from the main database, copy `default_tasks` from the
main database only, and commit.  Any exception in the span propagates. -/
def execute_merge (main copy : SourceDB) : Except String MergedDB :=
  let decisions := analyze_quote_overlaps main.quotes copy.quotes
  match merge_quotes main.quotes copy.quotes decisions with
  | .error e => .error e
  | .ok mq =>
    match merge_related_table tasksColumns main.tasks copy.tasks mq.mapping with
    | .error e => .error e
    | .ok t =>
      match merge_related_table vendorQuotesColumns main.vendor_quotes
          copy.vendor_quotes mq.mapping with
      | .error e => .error e
      | .ok v =>
        match merge_related_table notesColumns main.notes copy.notes mq.mapping with
        | .error e => .error e
        | .ok n =>
          match merge_related_table eventsColumns main.events copy.events mq.mapping with
          | .error e => .error e
          | .ok ev =>
            let dts := main.default_tasks.map
              (fun r => OutDefaultTaskRow.mk r.label r.sort_order r.is_separator r.created_at)
            .ok ⟨mq.outQuotes, t.out, v.out, n.out, ev.out, dts⟩

/-- The durable state of the output database after `execute_merge` finishes:
on success the single `commit` makes all inserted rows durable; on an
exception the explicit `rollback` leaves the output with its cloned schema
and no rows. -/
def execute_merge_committed (main copy : SourceDB) : MergedDB :=
  match execute_merge main copy with
  | .ok db => db
  | .error _ => emptyMergedDB

/-- Convenience constructor for a concrete quote row in witnesses. -/
def wq (i : Nat) (qn : String) (c : Nat) (u : Option Nat) : QuoteRow :=
  ⟨i, Val.text "cust", qn, Val.null, Val.null, Val.null, Val.null, Val.null,
   Val.null, Val.int 0, c, u⟩

/-- Witness main source: quotes Q1 (effective time 5) and Q2, one task row
attached to Q1. -/
def mainW : SourceDB :=
  ⟨[wq 1 "Q1" 5 none, wq 2 "Q2" 1 none],
   [[("quote_id", Val.int 1), ("label", Val.text "tA"), ("done", Val.int 0),
     ("is_separator", Val.int 0)]],
   [], [], [],
   [⟨1, Val.text "dt", Val.int 10, Val.int 0, Val.int 0⟩]⟩

/-- Witness copy source: quotes Q1 (effective time 9, so the copy side wins
the overlap) and Q3, one task row attached to its Q1. -/
def copyW : SourceDB :=
  ⟨[wq 7 "Q1" 9 none, wq 8 "Q3" 2 none],
   [[("quote_id", Val.int 7), ("label", Val.text "tB"), ("done", Val.int 1),
     ("is_separator", Val.int 0)]],
   [], [], [],
   [⟨1, Val.text "ct", Val.int 20, Val.int 0, Val.int 0⟩]⟩

/-- Witness main source whose single task row lacks the `quote_id` column,
making the dependent-table phase raise. -/
def badMainW : SourceDB :=
  ⟨[wq 1 "Q1" 5 none], [[("label", Val.text "broken")]], [], [], [], []⟩

/-- The state produced by a successful `merge_quotes` run on the witness
sources (with a dummy default for the impossible error case). -/
def stW : MergeQuotesState :=
  match merge_quotes mainW.quotes copyW.quotes
      (analyze_quote_overlaps mainW.quotes copyW.quotes) with
  | .ok st => st
  | .error _ => ⟨[], [], 0, 0⟩

theorem alookup_append_some {β : Type} {k : String} {m₁ : List (String × β)} {v : β}
    (m₂ : List (String × β)) (h : alookup k m₁ = some v) :
    alookup k (m₁ ++ m₂) = some v := by
  induction m₁ with
  | nil => simp [alookup] at h
  | cons p m ih =>
    obtain ⟨k', v'⟩ := p
    by_cases hk : k' = k <;> simp_all [alookup]

theorem alookup_append_none {β : Type} {k : String} {m₁ : List (String × β)}
    (m₂ : List (String × β)) (h : alookup k m₁ = none) :
    alookup k (m₁ ++ m₂) = alookup k m₂ := by
  induction m₁ with
  | nil => simp
  | cons p m ih =>
    obtain ⟨k', v'⟩ := p
    by_cases hk : k' = k <;> simp_all [alookup]

theorem alookup_eq_none_iff {β : Type} (k : String) (m : List (String × β)) :
    alookup k m = none ↔ k ∉ m.map Prod.fst := by
  induction m with
  | nil => simp [alookup]
  | cons p m ih =>
    obtain ⟨k', v'⟩ := p
    by_cases hk : k' = k
    · subst hk
      simp [alookup]
    · simp only [alookup, if_neg hk, List.map_cons, List.mem_cons, ih]
      constructor
      · intro h hc
        rcases hc with hc | hc
        · exact hk hc.symm
        · exact h hc
      · intro h hc
        exact h (Or.inr hc)

theorem alookup_isSome_iff {β : Type} (k : String) (m : List (String × β)) :
    (alookup k m).isSome = true ↔ k ∈ m.map Prod.fst := by
  rcases h : alookup k m with _ | v
  · simpa using (alookup_eq_none_iff k m).mp h
  · simp only [Option.isSome_some, true_iff]
    by_contra hc
    rw [(alookup_eq_none_iff k m).mpr hc] at h
    exact Option.noConfusion h

theorem alookup_mem {β : Type} {k : String} {m : List (String × β)} {v : β}
    (h : alookup k m = some v) : (k, v) ∈ m := by
  induction m with
  | nil => simp [alookup] at h
  | cons p m ih =>
    obtain ⟨k', v'⟩ := p
    by_cases hk : k' = k <;> simp_all [alookup]

theorem hasKey_eq_isSome {β : Type} (k : String) (m : List (String × β)) :
    hasKey k m = (alookup k m).isSome := by
  induction m with
  | nil => rfl
  | cons p m ih =>
    obtain ⟨k', v'⟩ := p
    by_cases hk : k' = k <;> simp_all [hasKey, alookup]

theorem alookup_map_replace_self {β : Type} {m : List (String × β)} {k : String} (v : β)
    (h : hasKey k m = true) :
    alookup k (m.map (fun p => if p.1 = k then (k, v) else p)) = some v := by
  induction m with
  | nil => simp [hasKey] at h
  | cons p m ih =>
    obtain ⟨ka, va⟩ := p
    simp only [List.map_cons]
    dsimp only
    by_cases hk : ka = k
    · rw [if_pos hk]
      simp [alookup]
    · rw [if_neg hk]
      simp only [alookup, if_neg hk]
      simp only [hasKey, if_neg hk] at h
      exact ih h

theorem alookup_map_replace_ne {β : Type} {m : List (String × β)} {k k' : String} (v : β)
    (h : k' ≠ k) :
    alookup k' (m.map (fun p => if p.1 = k then (k, v) else p)) = alookup k' m := by
  induction m with
  | nil => rfl
  | cons p m ih =>
    obtain ⟨ka, va⟩ := p
    simp only [List.map_cons]
    dsimp only
    by_cases hk : ka = k
    · rw [if_pos hk]
      simp only [alookup, if_neg (fun hc : k = k' => h hc.symm),
        if_neg (fun hc : ka = k' => h (hk ▸ hc).symm)]
      exact ih
    · rw [if_neg hk]
      simp only [alookup]
      by_cases hka : ka = k'
      · rw [if_pos hka, if_pos hka]
      · rw [if_neg hka, if_neg hka]
        exact ih

theorem alookup_upsert_self {β : Type} (m : List (String × β)) (k : String) (v : β) :
    alookup k (upsert m k v) = some v := by
  unfold upsert
  by_cases h : hasKey k m
  · rw [if_pos h]
    exact alookup_map_replace_self v h
  · rw [if_neg h]
    rcases hv : alookup k m with _ | w
    · rw [alookup_append_none _ hv]
      simp [alookup]
    · rw [hasKey_eq_isSome, hv] at h
      simp at h

theorem alookup_upsert_ne {β : Type} (m : List (String × β)) (k k' : String) (v : β)
    (h : k' ≠ k) : alookup k' (upsert m k v) = alookup k' m := by
  unfold upsert
  by_cases hm : hasKey k m
  · rw [if_pos hm]
    exact alookup_map_replace_ne v h
  · rw [if_neg hm]
    rcases hv : alookup k' m with _ | w
    · rw [alookup_append_none _ hv]
      simp only [alookup, if_neg (fun hc : k = k' => h hc.symm)]
    · exact alookup_append_some _ hv

theorem hasKey_eq_false_iff {β : Type} (k : String) (m : List (String × β)) :
    hasKey k m = false ↔ alookup k m = none := by
  rw [hasKey_eq_isSome]
  rcases h : alookup k m with _ | v <;> simp

theorem keys_map_replace {β : Type} (m : List (String × β)) (k : String) (v : β) :
    (m.map (fun p => if p.1 = k then (k, v) else p)).map Prod.fst = m.map Prod.fst := by
  induction m with
  | nil => rfl
  | cons p m ih =>
    obtain ⟨ka, va⟩ := p
    simp only [List.map_cons]
    dsimp only
    by_cases hk : ka = k
    · rw [if_pos hk]
      simp [hk, ih]
    · rw [if_neg hk]
      simp [ih]

theorem keys_upsert {β : Type} (m : List (String × β)) (k : String) (v : β) :
    (upsert m k v).map Prod.fst =
      if hasKey k m then m.map Prod.fst else m.map Prod.fst ++ [k] := by
  unfold upsert
  by_cases h : hasKey k m
  · rw [if_pos h, if_pos h, keys_map_replace]
  · rw [if_neg h, if_neg h]
    simp

theorem mem_keys_upsert_iff {β : Type} (m : List (String × β)) (k k' : String) (v : β) :
    k' ∈ (upsert m k v).map Prod.fst ↔ k' ∈ m.map Prod.fst ∨ k' = k := by
  rw [keys_upsert]
  by_cases h : hasKey k m
  · rw [if_pos h]
    constructor
    · exact Or.inl
    · rintro (hm | rfl)
      · exact hm
      · rw [hasKey_eq_isSome] at h
        exact (alookup_isSome_iff k' m).mp h
  · rw [if_neg h]
    simp

theorem nodup_keys_upsert {β : Type} (m : List (String × β)) (k : String) (v : β)
    (h : (m.map Prod.fst).Nodup) : ((upsert m k v).map Prod.fst).Nodup := by
  rw [keys_upsert]
  by_cases hm : hasKey k m
  · rw [if_pos hm]
    exact h
  · rw [if_neg hm]
    have hk : k ∉ m.map Prod.fst := by
      rw [← alookup_eq_none_iff]
      exact (hasKey_eq_false_iff k m).mp (Bool.not_eq_true _ ▸ hm)
    simp [List.nodup_append, h, hk]

theorem quotesProjDict_foldl_lookup {db : List QuoteRow} :
    ∀ (acc : List (String × QuoteProj)) (k : String) (p : QuoteProj),
      alookup k (db.foldl (fun d r => upsert d r.quote_no (projOf r)) acc) = some p →
      (∃ r ∈ db, r.quote_no = k ∧ p = projOf r) ∨ alookup k acc = some p := by
  induction db with
  | nil => exact fun acc k p h => Or.inr h
  | cons r db ih =>
    intro acc k p h
    simp only [List.foldl_cons] at h
    rcases ih _ _ _ h with hdb | hacc
    · obtain ⟨r', hr', hno, hp⟩ := hdb
      exact Or.inl ⟨r', List.mem_cons_of_mem _ hr', hno, hp⟩
    · by_cases hk : r.quote_no = k
      · subst hk
        rw [alookup_upsert_self] at hacc
        exact Or.inl ⟨r, List.mem_cons_self _ _, rfl, (Option.some.inj hacc).symm⟩
      · rw [alookup_upsert_ne _ _ _ _ (fun hc => hk hc.symm)] at hacc
        exact Or.inr hacc

theorem quotesProjDict_lookup_spec {db : List QuoteRow} {k : String} {p : QuoteProj}
    (h : alookup k (quotesProjDict db) = some p) :
    ∃ r ∈ db, r.quote_no = k ∧ p = projOf r := by
  rcases quotesProjDict_foldl_lookup [] k p h with hdb | hacc
  · exact hdb
  · exact absurd hacc (by simp [alookup])

theorem quotesProjDict_lookup_quote_no {db : List QuoteRow} {k : String} {p : QuoteProj}
    (h : alookup k (quotesProjDict db) = some p) : p.quote_no = k := by
  obtain ⟨r, _, hno, hp⟩ := quotesProjDict_lookup_spec h
  rw [hp]
  exact hno

theorem mem_keys_quotesProjDict_foldl {db : List QuoteRow} :
    ∀ (acc : List (String × QuoteProj)) (k : String),
      k ∈ (db.foldl (fun d r => upsert d r.quote_no (projOf r)) acc).map Prod.fst ↔
      k ∈ acc.map Prod.fst ∨ k ∈ db.map QuoteRow.quote_no := by
  induction db with
  | nil => simp
  | cons r db ih =>
    intro acc k
    simp only [List.foldl_cons, List.map_cons, List.mem_cons]
    rw [ih, mem_keys_upsert_iff]
    tauto

theorem mem_keys_quotesProjDict {db : List QuoteRow} {k : String} :
    k ∈ (quotesProjDict db).map Prod.fst ↔ k ∈ db.map QuoteRow.quote_no := by
  rw [quotesProjDict, mem_keys_quotesProjDict_foldl]
  simp

theorem nodup_keys_quotesProjDict_foldl {db : List QuoteRow} :
    ∀ acc : List (String × QuoteProj),
      (acc.map Prod.fst).Nodup →
      ((db.foldl (fun d r => upsert d r.quote_no (projOf r)) acc).map Prod.fst).Nodup := by
  induction db with
  | nil => exact fun acc h => h
  | cons r db ih =>
    intro acc h
    simp only [List.foldl_cons]
    exact ih _ (nodup_keys_upsert _ _ _ h)

theorem nodup_keys_quotesProjDict (db : List QuoteRow) :
    ((quotesProjDict db).map Prod.fst).Nodup :=
  nodup_keys_quotesProjDict_foldl [] (by simp)

theorem ofDigitsRev_digitsRevAux :
    ∀ (fuel n : Nat), n ≤ fuel → ofDigitsRev (digitsRevAux fuel n) = n := by
  intro fuel
  induction fuel with
  | zero =>
    intro n hn
    have : n = 0 := Nat.le_zero.mp hn
    subst this
    simp [digitsRevAux, ofDigitsRev]
  | succ fuel ih =>
    intro n hn
    by_cases h : n < 10
    · simp [digitsRevAux, h, ofDigitsRev]
    · have h10 : 2 ≤ 10 := by omega
      have hdiv : n / 10 < n := Nat.div_lt_self (by omega) (by omega)
      simp only [digitsRevAux, if_neg h, ofDigitsRev]
      rw [ih (n / 10) (by omega)]
      omega

theorem ofDigitsRev_digitsRev (n : Nat) : ofDigitsRev (digitsRev n) = n :=
  ofDigitsRev_digitsRevAux n n (Nat.le_refl n)

theorem digitsRevAux_lt_ten :
    ∀ (fuel n : Nat), ∀ d ∈ digitsRevAux fuel n, d < 10 := by
  intro fuel
  induction fuel with
  | zero =>
    intro n d hd
    simp only [digitsRevAux, List.mem_singleton] at hd
    subst hd
    exact Nat.mod_lt _ (by omega)
  | succ fuel ih =>
    intro n d hd
    by_cases h : n < 10
    · simp only [digitsRevAux, if_pos h, List.mem_singleton] at hd
      omega
    · simp only [digitsRevAux, if_neg h, List.mem_cons] at hd
      rcases hd with rfl | hd'
      · exact Nat.mod_lt _ (by omega)
      · exact ih (n / 10) d hd'

theorem digitsRev_lt_ten (n : Nat) : ∀ d ∈ digitsRev n, d < 10 :=
  digitsRevAux_lt_ten n n

theorem digitChar_inj {d d' : Nat} (hd : d < 10) (hd' : d' < 10)
    (h : digitChar d = digitChar d') : d = d' := by
  interval_cases d <;> interval_cases d' <;> revert h <;> decide

theorem map_digitChar_inj :
    ∀ {ds ds' : List Nat}, (∀ d ∈ ds, d < 10) → (∀ d ∈ ds', d < 10) →
      ds.map digitChar = ds'.map digitChar → ds = ds' := by
  intro ds
  induction ds with
  | nil =>
    intro ds' _ _ h
    cases ds' with
    | nil => rfl
    | cons e es => simp at h
  | cons d ds ih =>
    intro ds' hds hds' h
    cases ds' with
    | nil => simp at h
    | cons e es =>
      simp only [List.map_cons, List.cons.injEq] at h
      have h1 := digitChar_inj (hds d (by simp)) (hds' e (by simp)) h.1
      have h2 := ih (fun x hx => hds x (by simp [hx])) (fun x hx => hds' x (by simp [hx])) h.2
      rw [h1, h2]

theorem natStr_inj {a b : Nat} (h : natStr a = natStr b) : a = b := by
  have hd := congrArg String.data h
  simp only [natStr] at hd
  have h2 : (digitsRev a).map digitChar = (digitsRev b).map digitChar :=
    List.reverse_injective hd
  have h3 := map_digitChar_inj (digitsRev_lt_ten a) (digitsRev_lt_ten b) h2
  calc a = ofDigitsRev (digitsRev a) := (ofDigitsRev_digitsRev a).symm
    _ = ofDigitsRev (digitsRev b) := by rw [h3]
    _ = b := ofDigitsRev_digitsRev b

theorem mapKey_inj {o o' : Origin} {i j : Nat} (h : mapKey o i = mapKey o' j) :
    o = o' ∧ i = j := by
  have hd := congrArg String.data h
  cases o <;> cases o' <;>
    simp only [mapKey, origName, String.data_append] at hd
  · simp only [List.cons_append, List.nil_append, List.cons.injEq, true_and] at hd
    exact ⟨rfl, natStr_inj (String.ext hd)⟩
  · simp at hd
  · simp at hd
  · simp only [List.cons_append, List.nil_append, List.cons.injEq, true_and] at hd
    exact ⟨rfl, natStr_inj (String.ext hd)⟩

theorem alookup_filterMap_of_mem {α : Type} {ks : List String}
    {G : String → Option (String × α)} (hG : ∀ x p, G x = some p → p.1 = x)
    {k : String} {p : String × α} (hk : k ∈ ks) (hd : G k = some p) :
    alookup k (ks.filterMap G) = some p.2 := by
  induction ks with
  | nil => simp at hk
  | cons k0 ks ih =>
    rcases hG0 : G k0 with _ | p0
    · rw [List.filterMap_cons_none hG0]
      rcases List.mem_cons.mp hk with rfl | hk'
      · rw [hG0] at hd
        exact Option.noConfusion hd
      · exact ih hk'
    · rw [List.filterMap_cons_some hG0]
      by_cases hkk : k0 = k
      · subst hkk
        rw [hG0] at hd
        obtain rfl := Option.some.inj hd
        simp [alookup, hG _ _ hG0]
      · have h1 : p0.1 ≠ k := by
          rw [hG _ _ hG0]
          exact hkk
        rcases List.mem_cons.mp hk with rfl | hk'
        · exact absurd rfl hkk
        · obtain ⟨pa, pb⟩ := p0
          simp only [alookup, if_neg h1]
          exact ih hk'

theorem alookup_filterMap_of_not_mem {α : Type} {ks : List String}
    {G : String → Option (String × α)} (hG : ∀ x p, G x = some p → p.1 = x)
    {k : String} (hk : k ∉ ks) :
    alookup k (ks.filterMap G) = none := by
  induction ks with
  | nil => rfl
  | cons k0 ks ih =>
    have hk0 : k0 ≠ k := fun hc => hk (hc ▸ List.mem_cons_self _ _)
    have hks : k ∉ ks := fun hc => hk (List.mem_cons_of_mem _ hc)
    rcases hG0 : G k0 with _ | p0
    · rw [List.filterMap_cons_none hG0]
      exact ih hks
    · rw [List.filterMap_cons_some hG0]
      obtain ⟨pa, pb⟩ := p0
      have h1 : pa ≠ k := by
        have := hG _ _ hG0
        simp only at this
        rw [this]
        exact hk0
      simp only [alookup, if_neg h1]
      exact ih hks

theorem keys_filterMap_total {α : Type} {ks : List String}
    {G : String → Option (String × α)} (hG : ∀ x p, G x = some p → p.1 = x)
    (htot : ∀ k ∈ ks, (G k).isSome) :
    (ks.filterMap G).map Prod.fst = ks := by
  induction ks with
  | nil => rfl
  | cons k0 ks ih =>
    have h0 := htot k0 (List.mem_cons_self _ _)
    rcases hG0 : G k0 with _ | p0
    · rw [hG0] at h0
      simp at h0
    · rw [List.filterMap_cons_some hG0]
      simp only [List.map_cons, hG _ _ hG0]
      rw [ih (fun k hk => htot k (List.mem_cons_of_mem _ hk))]

theorem mem_overlappingKeys {m c : List QuoteRow} {k : String} :
    k ∈ overlappingKeys m c ↔
      k ∈ (quotesProjDict m).map Prod.fst ∧ k ∈ (quotesProjDict c).map Prod.fst := by
  rw [overlappingKeys, List.mem_filter]
  simp [List.elem_iff]

theorem mem_mainOnlyKeys {m c : List QuoteRow} {k : String} :
    k ∈ mainOnlyKeys m c ↔
      k ∈ (quotesProjDict m).map Prod.fst ∧ k ∉ (quotesProjDict c).map Prod.fst := by
  rw [mainOnlyKeys, List.mem_filter]
  simp [List.elem_iff]

theorem mem_copyOnlyKeys {m c : List QuoteRow} {k : String} :
    k ∈ copyOnlyKeys m c ↔
      k ∈ (quotesProjDict c).map Prod.fst ∧ k ∉ (quotesProjDict m).map Prod.fst := by
  rw [copyOnlyKeys, List.mem_filter]
  simp [List.elem_iff]

theorem analyze_overlap_seg_fst {m c : List QuoteRow} :
    ∀ (x : String) (p : String × Decision),
      (match alookup x (quotesProjDict m), alookup x (quotesProjDict c) with
        | some mq, some cq => some (x, overlapDecision mq cq)
        | _, _ => none) = some p → p.1 = x := by
  intro x p h
  split at h
  · obtain rfl := Option.some.inj h
    rfl
  · exact Option.noConfusion h

theorem analyze_main_seg_fst {m : List QuoteRow} :
    ∀ (x : String) (p : String × Decision),
      ((alookup x (quotesProjDict m)).map
        (fun mq => (x, (⟨"main_only", .main, mq⟩ : Decision)))) = some p → p.1 = x := by
  intro x p h
  rcases he : alookup x (quotesProjDict m) with _ | mq <;> rw [he] at h
  · exact Option.noConfusion h
  · obtain rfl := Option.some.inj h
    rfl

theorem analyze_copy_seg_fst {c : List QuoteRow} :
    ∀ (x : String) (p : String × Decision),
      ((alookup x (quotesProjDict c)).map
        (fun cq => (x, (⟨"copy_only", .copy, cq⟩ : Decision)))) = some p → p.1 = x := by
  intro x p h
  rcases he : alookup x (quotesProjDict c) with _ | cq <;> rw [he] at h
  · exact Option.noConfusion h
  · obtain rfl := Option.some.inj h
    rfl

theorem analyze_lookup_overlap {m c : List QuoteRow} {k : String} {mp cp : QuoteProj}
    (hm : alookup k (quotesProjDict m) = some mp)
    (hc : alookup k (quotesProjDict c) = some cp) :
    alookup k (analyze_quote_overlaps m c) = some (overlapDecision mp cp) := by
  have hk1 : k ∈ overlappingKeys m c :=
    mem_overlappingKeys.mpr ⟨(alookup_isSome_iff k _).mp (by rw [hm]; rfl),
      (alookup_isSome_iff k _).mp (by rw [hc]; rfl)⟩
  have h1 := alookup_filterMap_of_mem (p := (k, overlapDecision mp cp))
    (analyze_overlap_seg_fst (m := m) (c := c)) hk1 (by rw [hm, hc])
  show alookup k (_ ++ _ ++ _) = _
  exact alookup_append_some _ (alookup_append_some _ h1)

theorem analyze_lookup_main_only {m c : List QuoteRow} {k : String} {mp : QuoteProj}
    (hm : alookup k (quotesProjDict m) = some mp)
    (hc : alookup k (quotesProjDict c) = none) :
    alookup k (analyze_quote_overlaps m c) = some ⟨"main_only", .main, mp⟩ := by
  have hkc : k ∉ (quotesProjDict c).map Prod.fst := (alookup_eq_none_iff k _).mp hc
  have hk1 : k ∉ overlappingKeys m c := fun hk => hkc (mem_overlappingKeys.mp hk).2
  have hk2 : k ∈ mainOnlyKeys m c :=
    mem_mainOnlyKeys.mpr ⟨(alookup_isSome_iff k _).mp (by rw [hm]; rfl), hkc⟩
  have h1 := alookup_filterMap_of_not_mem
    (analyze_overlap_seg_fst (m := m) (c := c)) hk1
  have h2 := alookup_filterMap_of_mem (p := (k, (⟨"main_only", .main, mp⟩ : Decision)))
    (analyze_main_seg_fst (m := m)) hk2 (by rw [hm]; rfl)
  show alookup k (_ ++ _ ++ _) = _
  exact alookup_append_some _ (by rw [alookup_append_none _ h1]; exact h2)

theorem analyze_lookup_copy_only {m c : List QuoteRow} {k : String} {cp : QuoteProj}
    (hm : alookup k (quotesProjDict m) = none)
    (hc : alookup k (quotesProjDict c) = some cp) :
    alookup k (analyze_quote_overlaps m c) = some ⟨"copy_only", .copy, cp⟩ := by
  have hkm : k ∉ (quotesProjDict m).map Prod.fst := (alookup_eq_none_iff k _).mp hm
  have hk1 : k ∉ overlappingKeys m c := fun hk => hkm (mem_overlappingKeys.mp hk).1
  have hk2 : k ∉ mainOnlyKeys m c := fun hk => hkm (mem_mainOnlyKeys.mp hk).1
  have hk3 : k ∈ copyOnlyKeys m c :=
    mem_copyOnlyKeys.mpr ⟨(alookup_isSome_iff k _).mp (by rw [hc]; rfl), hkm⟩
  have h1 := alookup_filterMap_of_not_mem
    (analyze_overlap_seg_fst (m := m) (c := c)) hk1
  have h2 := alookup_filterMap_of_not_mem (analyze_main_seg_fst (m := m)) hk2
  have h3 := alookup_filterMap_of_mem (p := (k, (⟨"copy_only", .copy, cp⟩ : Decision)))
    (analyze_copy_seg_fst (c := c)) hk3 (by rw [hc]; rfl)
  show alookup k (_ ++ _ ++ _) = _
  rw [alookup_append_none _ (by rw [alookup_append_none _ h1]; exact h2)]
  exact h3

theorem analyze_lookup_none {m c : List QuoteRow} {k : String}
    (hm : alookup k (quotesProjDict m) = none)
    (hc : alookup k (quotesProjDict c) = none) :
    alookup k (analyze_quote_overlaps m c) = none := by
  have hkm : k ∉ (quotesProjDict m).map Prod.fst := (alookup_eq_none_iff k _).mp hm
  have hkc : k ∉ (quotesProjDict c).map Prod.fst := (alookup_eq_none_iff k _).mp hc
  have hn1 : k ∉ overlappingKeys m c := fun hk => hkm (mem_overlappingKeys.mp hk).1
  have hn2 : k ∉ mainOnlyKeys m c := fun hk => hkm (mem_mainOnlyKeys.mp hk).1
  have hn3 : k ∉ copyOnlyKeys m c := fun hk => hkc (mem_copyOnlyKeys.mp hk).1
  have h1 := alookup_filterMap_of_not_mem
    (analyze_overlap_seg_fst (m := m) (c := c)) hn1
  have h2 := alookup_filterMap_of_not_mem (analyze_main_seg_fst (m := m)) hn2
  have h3 := alookup_filterMap_of_not_mem (analyze_copy_seg_fst (c := c)) hn3
  show alookup k (_ ++ _ ++ _) = _
  rw [alookup_append_none _ (by rw [alookup_append_none _ h1]; exact h2)]
  exact h3

theorem analyze_overlap_seg_total {m c : List QuoteRow} :
    ∀ k ∈ overlappingKeys m c,
      (match alookup k (quotesProjDict m), alookup k (quotesProjDict c) with
        | some mq, some cq => some (k, overlapDecision mq cq)
        | _, _ => none).isSome := by
  intro k hk
  obtain ⟨h1, h2⟩ := mem_overlappingKeys.mp hk
  rcases he1 : alookup k (quotesProjDict m) with _ | mq
  · exact absurd h1 ((alookup_eq_none_iff _ _).mp he1)
  · rcases he2 : alookup k (quotesProjDict c) with _ | cq
    · exact absurd h2 ((alookup_eq_none_iff _ _).mp he2)
    · rfl

theorem analyze_main_seg_total {m c : List QuoteRow} :
    ∀ k ∈ mainOnlyKeys m c,
      ((alookup k (quotesProjDict m)).map
        (fun mq => (k, (⟨"main_only", .main, mq⟩ : Decision)))).isSome := by
  intro k hk
  obtain ⟨h1, _⟩ := mem_mainOnlyKeys.mp hk
  rcases he1 : alookup k (quotesProjDict m) with _ | mq
  · exact absurd h1 ((alookup_eq_none_iff _ _).mp he1)
  · rfl

theorem analyze_copy_seg_total {m c : List QuoteRow} :
    ∀ k ∈ copyOnlyKeys m c,
      ((alookup k (quotesProjDict c)).map
        (fun cq => (k, (⟨"copy_only", .copy, cq⟩ : Decision)))).isSome := by
  intro k hk
  obtain ⟨h1, _⟩ := mem_copyOnlyKeys.mp hk
  rcases he1 : alookup k (quotesProjDict c) with _ | cq
  · exact absurd h1 ((alookup_eq_none_iff _ _).mp he1)
  · rfl

theorem analyze_keys (m c : List QuoteRow) :
    (analyze_quote_overlaps m c).map Prod.fst =
      overlappingKeys m c ++ mainOnlyKeys m c ++ copyOnlyKeys m c := by
  show ((_ ++ _ ++ _ : List (String × Decision)).map Prod.fst) = _
  rw [List.map_append, List.map_append]
  rw [keys_filterMap_total (analyze_overlap_seg_fst (m := m) (c := c))
      (analyze_overlap_seg_total (m := m) (c := c)),
    keys_filterMap_total (analyze_main_seg_fst (m := m))
      (analyze_main_seg_total (m := m) (c := c)),
    keys_filterMap_total (analyze_copy_seg_fst (c := c))
      (analyze_copy_seg_total (m := m) (c := c))]

theorem analyze_keys_nodup (m c : List QuoteRow) :
    ((analyze_quote_overlaps m c).map Prod.fst).Nodup := by
  rw [analyze_keys, List.nodup_append, List.nodup_append]
  refine ⟨⟨(nodup_keys_quotesProjDict m).filter _, (nodup_keys_quotesProjDict m).filter _,
    ?_⟩, (nodup_keys_quotesProjDict c).filter _, ?_⟩
  · intro a ha hb
    exact (mem_mainOnlyKeys.mp hb).2 (mem_overlappingKeys.mp ha).2
  · intro a ha hb
    rcases List.mem_append.mp ha with h | h
    · exact (mem_copyOnlyKeys.mp hb).2 (mem_overlappingKeys.mp h).1
    · exact (mem_copyOnlyKeys.mp hb).2 (mem_mainOnlyKeys.mp h).1

theorem analyze_lookup_cases {m c : List QuoteRow} {k : String} {d : Decision}
    (h : alookup k (analyze_quote_overlaps m c) = some d) :
    (∃ mp cp, alookup k (quotesProjDict m) = some mp ∧
       alookup k (quotesProjDict c) = some cp ∧ d = overlapDecision mp cp) ∨
    (∃ mp, alookup k (quotesProjDict m) = some mp ∧
       alookup k (quotesProjDict c) = none ∧ d = ⟨"main_only", .main, mp⟩) ∨
    (∃ cp, alookup k (quotesProjDict m) = none ∧
       alookup k (quotesProjDict c) = some cp ∧ d = ⟨"copy_only", .copy, cp⟩) := by
  rcases he1 : alookup k (quotesProjDict m) with _ | mp <;>
    rcases he2 : alookup k (quotesProjDict c) with _ | cp
  · rw [analyze_lookup_none he1 he2] at h
    exact Option.noConfusion h
  · exact Or.inr (Or.inr ⟨cp, rfl, rfl,
      (Option.some.inj ((analyze_lookup_copy_only he1 he2).symm.trans h)).symm⟩)
  · exact Or.inr (Or.inl ⟨mp, rfl, rfl,
      (Option.some.inj ((analyze_lookup_main_only he1 he2).symm.trans h)).symm⟩)
  · exact Or.inl ⟨mp, cp, rfl, rfl,
      (Option.some.inj ((analyze_lookup_overlap he1 he2).symm.trans h)).symm⟩

theorem alookup_of_mem_nodup {β : Type} {m : List (String × β)} {k : String} {v : β}
    (hnd : (m.map Prod.fst).Nodup) (hm : (k, v) ∈ m) : alookup k m = some v := by
  induction m with
  | nil => simp at hm
  | cons p m ih =>
    obtain ⟨ka, va⟩ := p
    simp only [List.map_cons, List.nodup_cons] at hnd
    rcases List.mem_cons.mp hm with heq | hm'
    · injection heq with h1 h2
      subst h1
      subst h2
      simp [alookup]
    · have hka : ka ≠ k := by
        intro hre
        apply hnd.1
        rw [hre]
        exact List.mem_map.mpr ⟨(k, v), hm', rfl⟩
      simp only [alookup, if_neg hka]
      exact ih hnd.2 hm'

theorem mem_upsert {β : Type} {m : List (String × β)} {k : String} {v : β} {p : String × β}
    (h : p ∈ upsert m k v) : p ∈ m ∨ p = (k, v) := by
  unfold upsert at h
  by_cases hm : hasKey k m
  · rw [if_pos hm] at h
    obtain ⟨q, hq, hpq⟩ := List.mem_map.mp h
    by_cases hqk : q.1 = k
    · rw [if_pos hqk] at hpq
      exact Or.inr hpq.symm
    · rw [if_neg hqk] at hpq
      exact Or.inl (hpq ▸ hq)
  · rw [if_neg hm] at h
    rcases List.mem_append.mp h with h1 | h1
    · exact Or.inl h1
    · exact Or.inr (List.mem_singleton.mp h1)

theorem dict_id_inj {db : List QuoteRow} {k k' : String} {p p' : QuoteProj}
    (hnd : (db.map QuoteRow.id).Nodup)
    (h : alookup k (quotesProjDict db) = some p)
    (h' : alookup k' (quotesProjDict db) = some p')
    (hid : p.id = p'.id) : k = k' := by
  obtain ⟨r, hr, hrk, hp⟩ := quotesProjDict_lookup_spec h
  obtain ⟨r', hr', hrk', hp'⟩ := quotesProjDict_lookup_spec h'
  have hrr : r = r' := by
    refine List.inj_on_of_nodup_map hnd hr hr' ?_
    rw [hp, hp'] at hid
    exact hid
  rw [← hrk, ← hrk', hrr]

theorem mapKey_clash {m c : List QuoteRow}
    (hm : (m.map QuoteRow.id).Nodup) (hc : (c.map QuoteRow.id).Nodup)
    {o o' : Origin} {k k' : String} {p p' : QuoteProj}
    (h : alookup k (quotesProjDict (originDB m c o)) = some p)
    (h' : alookup k' (quotesProjDict (originDB m c o')) = some p')
    (heq : mapKey o p.id = mapKey o' p'.id) : k = k' := by
  obtain ⟨rfl, hid⟩ := mapKey_inj heq
  refine dict_id_inj ?_ h h' hid
  cases o
  · exact hm
  · exact hc

theorem mergeQuoteStep_eq_err {m c : List QuoteRow} {st : MergeQuotesState}
    {k : String} {d : Decision}
    (hr : findById (originDB m c d.winner) d.winner_data.id = none) :
    mergeQuoteStep m c st (k, d) =
      .error "TypeError: NoneType object is not subscriptable" := by
  unfold mergeQuoteStep
  dsimp only
  rw [hr]

theorem mergeQuoteStep_eq_unique {m c : List QuoteRow} {st : MergeQuotesState}
    {k : String} {d : Decision} {r : QuoteRow}
    (hr : findById (originDB m c d.winner) d.winner_data.id = some r)
    (hov : ¬d.status = "overlapping") :
    mergeQuoteStep m c st (k, d) = .ok ⟨st.outQuotes ++ [insertedQuote r],
      upsert st.mapping (mapKey d.winner d.winner_data.id)
        ⟨st.outQuotes.length + 1, k, true⟩,
      st.merged + 1, st.dedup⟩ := by
  unfold mergeQuoteStep
  dsimp only
  rw [hr]
  simp only [if_neg hov]

theorem mergeQuoteStep_eq_overlap_found {m c : List QuoteRow} {st : MergeQuotesState}
    {k : String} {d : Decision} {r : QuoteRow} {lq : QuoteProj}
    (hr : findById (originDB m c d.winner) d.winner_data.id = some r)
    (hov : d.status = "overlapping")
    (hlq : alookup k (quotesProjDict (originDB m c (otherOrigin d.winner))) = some lq) :
    mergeQuoteStep m c st (k, d) = .ok ⟨st.outQuotes ++ [insertedQuote r],
      upsert (upsert st.mapping (mapKey d.winner d.winner_data.id)
          ⟨st.outQuotes.length + 1, k, true⟩)
        (mapKey (otherOrigin d.winner) lq.id)
        ⟨st.outQuotes.length + 1, k, false⟩,
      st.merged + 1, st.dedup + 1⟩ := by
  unfold mergeQuoteStep
  dsimp only
  rw [hr]
  simp only [if_pos hov, hlq]

theorem mergeQuoteStep_eq_overlap_missing {m c : List QuoteRow} {st : MergeQuotesState}
    {k : String} {d : Decision} {r : QuoteRow}
    (hr : findById (originDB m c d.winner) d.winner_data.id = some r)
    (hov : d.status = "overlapping")
    (hlq : alookup k (quotesProjDict (originDB m c (otherOrigin d.winner))) = none) :
    mergeQuoteStep m c st (k, d) = .ok ⟨st.outQuotes ++ [insertedQuote r],
      upsert st.mapping (mapKey d.winner d.winner_data.id)
        ⟨st.outQuotes.length + 1, k, true⟩,
      st.merged + 1, st.dedup⟩ := by
  unfold mergeQuoteStep
  dsimp only
  rw [hr]
  simp only [if_pos hov, hlq]

theorem mergeQuotesGo_append {m c : List QuoteRow} {st : MergeQuotesState}
    (l₁ l₂ : List (String × Decision)) :
    mergeQuotesGo m c st (l₁ ++ l₂) =
      match mergeQuotesGo m c st l₁ with
      | .error e => .error e
      | .ok st1 => mergeQuotesGo m c st1 l₂ := by
  induction l₁ generalizing st with
  | nil => rfl
  | cons kv l₁ ih =>
    rw [List.cons_append]
    rw [show mergeQuotesGo m c st (kv :: (l₁ ++ l₂)) =
      (match mergeQuoteStep m c st kv with
        | .error e => .error e
        | .ok st1 => mergeQuotesGo m c st1 (l₁ ++ l₂)) from rfl]
    rw [show mergeQuotesGo m c st (kv :: l₁) =
      (match mergeQuoteStep m c st kv with
        | .error e => .error e
        | .ok st1 => mergeQuotesGo m c st1 l₁) from rfl]
    rcases mergeQuoteStep m c st kv with e | st1
    · rfl
    · exact ih

theorem mergeQuoteStep_ok_char {m c : List QuoteRow} {st : MergeQuotesState}
    {k : String} {d : Decision} {st' : MergeQuotesState}
    (h : mergeQuoteStep m c st (k, d) = .ok st') :
    ∃ r, findById (originDB m c d.winner) d.winner_data.id = some r ∧
      st'.outQuotes = st.outQuotes ++ [insertedQuote r] ∧
      st'.merged = st.merged + 1 ∧
      ((st'.mapping = upsert st.mapping (mapKey d.winner d.winner_data.id)
          ⟨st.outQuotes.length + 1, k, true⟩ ∧ st'.dedup = st.dedup) ∨
       (∃ lq, d.status = "overlapping" ∧
         alookup k (quotesProjDict (originDB m c (otherOrigin d.winner))) = some lq ∧
         st'.mapping = upsert (upsert st.mapping (mapKey d.winner d.winner_data.id)
             ⟨st.outQuotes.length + 1, k, true⟩)
           (mapKey (otherOrigin d.winner) lq.id)
           ⟨st.outQuotes.length + 1, k, false⟩ ∧
         st'.dedup = st.dedup + 1)) := by
  rcases hr : findById (originDB m c d.winner) d.winner_data.id with _ | r
  · rw [mergeQuoteStep_eq_err hr] at h
    exact Except.noConfusion h
  · refine ⟨r, rfl, ?_⟩
    by_cases hov : d.status = "overlapping"
    · rcases hlq : alookup k (quotesProjDict (originDB m c (otherOrigin d.winner))) with _ | lq
      · rw [mergeQuoteStep_eq_overlap_missing hr hov hlq] at h
        obtain rfl := (Except.ok.inj h).symm
        exact ⟨rfl, rfl, Or.inl ⟨rfl, rfl⟩⟩
      · rw [mergeQuoteStep_eq_overlap_found hr hov hlq] at h
        obtain rfl := (Except.ok.inj h).symm
        exact ⟨rfl, rfl, Or.inr ⟨lq, hov, rfl, rfl, rfl⟩⟩
    · rw [mergeQuoteStep_eq_unique hr hov] at h
      obtain rfl := (Except.ok.inj h).symm
      exact ⟨rfl, rfl, Or.inl ⟨rfl, rfl⟩⟩

theorem mergeQuoteStep_ok_exists {m c : List QuoteRow} {st : MergeQuotesState}
    {k : String} {d : Decision} {r : QuoteRow}
    (hr : findById (originDB m c d.winner) d.winner_data.id = some r) :
    ∃ st', mergeQuoteStep m c st (k, d) = .ok st' ∧
      st'.outQuotes = st.outQuotes ++ [insertedQuote r] ∧ st'.merged = st.merged + 1 := by
  by_cases hov : d.status = "overlapping"
  · rcases hlq : alookup k (quotesProjDict (originDB m c (otherOrigin d.winner))) with _ | lq
    · exact ⟨_, mergeQuoteStep_eq_overlap_missing hr hov hlq, rfl, rfl⟩
    · exact ⟨_, mergeQuoteStep_eq_overlap_found hr hov hlq, rfl, rfl⟩
  · exact ⟨_, mergeQuoteStep_eq_unique hr hov, rfl, rfl⟩

theorem mergeQuotesGo_ok_map {m c : List QuoteRow} :
    ∀ (ds : List (String × Decision)) (st : MergeQuotesState),
      (∀ kv ∈ ds, ∃ r, findById (originDB m c kv.2.winner) kv.2.winner_data.id = some r ∧
        r.quote_no = kv.1) →
      ∃ st', mergeQuotesGo m c st ds = .ok st' ∧
        st'.outQuotes.map OutQuoteRow.quote_no =
          st.outQuotes.map OutQuoteRow.quote_no ++ ds.map Prod.fst := by
  intro ds
  induction ds with
  | nil => exact fun st _ => ⟨st, rfl, by simp⟩
  | cons kv ds ih =>
    intro st h
    obtain ⟨kk, dd⟩ := kv
    obtain ⟨r, hr, hqn⟩ := h (kk, dd) (List.mem_cons_self _ _)
    obtain ⟨st1, hstep, hout, _⟩ := @mergeQuoteStep_ok_exists m c st kk dd r hr
    obtain ⟨st', hgo, hmap⟩ := ih st1 (fun kv hkv => h kv (List.mem_cons_of_mem _ hkv))
    refine ⟨st', ?_, ?_⟩
    · rw [show mergeQuotesGo m c st ((kk, dd) :: ds) =
        (match mergeQuoteStep m c st (kk, dd) with
          | .error e => .error e
          | .ok st1 => mergeQuotesGo m c st1 ds) from rfl, hstep]
      exact hgo
    · rw [hmap, hout]
      simp only [List.map_append, List.map_cons, List.map_nil]
      rw [show (insertedQuote r).quote_no = r.quote_no from rfl, hqn]
      simp

theorem mergeQuotesGo_error_of_missing {m c : List QuoteRow} :
    ∀ (ds : List (String × Decision)) (st : MergeQuotesState),
      (∃ kv ∈ ds, findById (originDB m c kv.2.winner) kv.2.winner_data.id = none) →
      ∃ e, mergeQuotesGo m c st ds = .error e := by
  intro ds
  induction ds with
  | nil => rintro st ⟨kv, hkv, _⟩; simp at hkv
  | cons kv0 ds ih =>
    intro st h
    obtain ⟨kk, dd⟩ := kv0
    rcases hr : findById (originDB m c dd.winner) dd.winner_data.id with _ | r
    · refine ⟨"TypeError: NoneType object is not subscriptable", ?_⟩
      rw [show mergeQuotesGo m c st ((kk, dd) :: ds) =
        (match mergeQuoteStep m c st (kk, dd) with
          | .error e => .error e
          | .ok st1 => mergeQuotesGo m c st1 ds) from rfl,
        mergeQuoteStep_eq_err hr]
    · obtain ⟨st1, hstep, _, _⟩ := @mergeQuoteStep_ok_exists m c st kk dd r hr
      obtain ⟨kv, hkv, hmiss⟩ := h
      rcases List.mem_cons.mp hkv with rfl | hkv'
      · rw [hr] at hmiss
        exact Option.noConfusion hmiss
      · obtain ⟨e, he⟩ := ih st1 ⟨kv, hkv', hmiss⟩
        refine ⟨e, ?_⟩
        rw [show mergeQuotesGo m c st ((kk, dd) :: ds) =
          (match mergeQuoteStep m c st (kk, dd) with
            | .error e => .error e
            | .ok st1 => mergeQuotesGo m c st1 ds) from rfl, hstep]
        exact he

theorem mergeQuotesGo_mapping_bound {m c : List QuoteRow} :
    ∀ (ds : List (String × Decision)) (st st' : MergeQuotesState),
      mergeQuotesGo m c st ds = .ok st' →
      (∀ p ∈ st.mapping, 1 ≤ p.2.new_id ∧ p.2.new_id ≤ st.outQuotes.length) →
      ∀ p ∈ st'.mapping, 1 ≤ p.2.new_id ∧ p.2.new_id ≤ st'.outQuotes.length := by
  intro ds
  induction ds with
  | nil =>
    intro st st' h hb
    obtain rfl := (Except.ok.inj h).symm
    exact hb
  | cons kv0 ds ih =>
    intro st st' h hb
    obtain ⟨kk, dd⟩ := kv0
    rw [show mergeQuotesGo m c st ((kk, dd) :: ds) =
      (match mergeQuoteStep m c st (kk, dd) with
        | .error e => .error e
        | .ok st1 => mergeQuotesGo m c st1 ds) from rfl] at h
    rcases hstep : mergeQuoteStep m c st (kk, dd) with e | st1 <;> rw [hstep] at h
    · exact Except.noConfusion h
    · refine ih st1 st' h ?_
      obtain ⟨r, hr, hout, _, hcase⟩ := mergeQuoteStep_ok_char hstep
      have hlen : st1.outQuotes.length = st.outQuotes.length + 1 := by
        rw [hout]
        simp
      have hb1 : ∀ p ∈ upsert st.mapping (mapKey dd.winner dd.winner_data.id)
          (⟨st.outQuotes.length + 1, kk, true⟩ : MapVal),
          1 ≤ p.2.new_id ∧ p.2.new_id ≤ st1.outQuotes.length := by
        intro p hp
        rw [hlen]
        rcases mem_upsert hp with hin | rfl
        · have := hb p hin
          omega
        · simp only
          omega
      rcases hcase with ⟨hmap, _⟩ | ⟨lq, _, _, hmap, _⟩
      · rw [hmap]
        exact hb1
      · rw [hmap]
        intro p hp
        rcases mem_upsert hp with hin | rfl
        · exact hb1 p hin
        · rw [hlen]
          simp only
          omega

theorem otherOrigin_ne (o : Origin) : otherOrigin o ≠ o := by
  cases o <;> simp [otherOrigin]

theorem findById_of_mem {db : List QuoteRow} {r : QuoteRow}
    (hnd : (db.map QuoteRow.id).Nodup) (hr : r ∈ db) : findById db r.id = some r := by
  induction db with
  | nil => simp at hr
  | cons h0 db ih =>
    simp only [List.map_cons, List.nodup_cons] at hnd
    rcases List.mem_cons.mp hr with rfl | hr'
    · simp [findById]
    · have hne : h0.id ≠ r.id := by
        intro he
        apply hnd.1
        rw [he]
        exact List.mem_map.mpr ⟨r, hr', rfl⟩
      unfold findById
      rw [List.find?_cons_of_neg _ (by simpa using hne)]
      exact ih hnd.2 hr'

theorem findById_mem {db : List QuoteRow} {i : Nat} {r : QuoteRow}
    (h : findById db i = some r) : r ∈ db ∧ r.id = i := by
  refine ⟨List.mem_of_find?_eq_some h, ?_⟩
  have := List.find?_some h
  simpa using this

theorem overlapDecision_pos {mq cq : QuoteProj}
    (hw : cq.updated_at.getD cq.created_at > mq.updated_at.getD mq.created_at) :
    overlapDecision mq cq = ⟨"overlapping", .copy, cq⟩ := by
  rw [overlapDecision, if_pos hw]

theorem overlapDecision_neg {mq cq : QuoteProj}
    (hw : ¬cq.updated_at.getD cq.created_at > mq.updated_at.getD mq.created_at) :
    overlapDecision mq cq = ⟨"overlapping", .main, mq⟩ := by
  rw [overlapDecision, if_neg hw]

theorem analyze_winner_lookup {m c : List QuoteRow} {k : String} {d : Decision}
    (h : alookup k (analyze_quote_overlaps m c) = some d) :
    alookup k (quotesProjDict (originDB m c d.winner)) = some d.winner_data := by
  rcases analyze_lookup_cases h with ⟨mp, cp, h1, h2, rfl⟩ | ⟨mp, h1, h2, rfl⟩ |
    ⟨cp, h1, h2, rfl⟩
  · by_cases hw : cp.updated_at.getD cp.created_at > mp.updated_at.getD mp.created_at
    · rw [overlapDecision_pos hw]
      exact h2
    · rw [overlapDecision_neg hw]
      exact h1
  · exact h1
  · exact h2

theorem analyze_overlap_status {m c : List QuoteRow} {k : String} {d : Decision}
    (h : alookup k (analyze_quote_overlaps m c) = some d)
    (hov : d.status = "overlapping") :
    ∃ mp cp, alookup k (quotesProjDict m) = some mp ∧
      alookup k (quotesProjDict c) = some cp ∧ d = overlapDecision mp cp := by
  rcases analyze_lookup_cases h with hcase | ⟨mp, h1, h2, rfl⟩ | ⟨cp, h1, h2, rfl⟩
  · exact hcase
  · simp at hov
  · simp at hov

theorem mergeQuoteStep_mapping_frame {m c : List QuoteRow} {st : MergeQuotesState}
    {k : String} {d : Decision} {st' : MergeQuotesState} {s : String}
    (h : mergeQuoteStep m c st (k, d) = .ok st')
    (h1 : s ≠ mapKey d.winner d.winner_data.id)
    (h2 : ∀ lq, alookup k (quotesProjDict (originDB m c (otherOrigin d.winner))) = some lq →
      s ≠ mapKey (otherOrigin d.winner) lq.id) :
    alookup s st'.mapping = alookup s st.mapping := by
  obtain ⟨r, hr, _, _, hcase⟩ := mergeQuoteStep_ok_char h
  rcases hcase with ⟨hmap, _⟩ | ⟨lq, _, hlq, hmap, _⟩
  · rw [hmap, alookup_upsert_ne _ _ _ _ h1]
  · rw [hmap, alookup_upsert_ne _ _ _ _ (h2 lq hlq), alookup_upsert_ne _ _ _ _ h1]

theorem mergeQuotesGo_mapping_frame {m c : List QuoteRow} :
    ∀ (ds : List (String × Decision)) (st st' : MergeQuotesState) (s : String),
      mergeQuotesGo m c st ds = .ok st' →
      (∀ kv ∈ ds, s ≠ mapKey kv.2.winner kv.2.winner_data.id ∧
        ∀ lq, alookup kv.1 (quotesProjDict (originDB m c (otherOrigin kv.2.winner))) =
            some lq → s ≠ mapKey (otherOrigin kv.2.winner) lq.id) →
      alookup s st'.mapping = alookup s st.mapping := by
  intro ds
  induction ds with
  | nil =>
    intro st st' s h _
    obtain rfl := (Except.ok.inj h).symm
    rfl
  | cons kv0 ds ih =>
    intro st st' s h hcond
    obtain ⟨kk, dd⟩ := kv0
    rw [show mergeQuotesGo m c st ((kk, dd) :: ds) =
      (match mergeQuoteStep m c st (kk, dd) with
        | .error e => .error e
        | .ok st1 => mergeQuotesGo m c st1 ds) from rfl] at h
    rcases hstep : mergeQuoteStep m c st (kk, dd) with e | st1 <;> rw [hstep] at h
    · exact Except.noConfusion h
    · obtain ⟨hc1, hc2⟩ := hcond (kk, dd) (List.mem_cons_self _ _)
      rw [ih st1 st' s h (fun kv hkv => hcond kv (List.mem_cons_of_mem _ hkv))]
      exact mergeQuoteStep_mapping_frame hstep hc1 hc2

theorem mergeQuotesGo_preserve_written {m c : List QuoteRow}
    (hm : (m.map QuoteRow.id).Nodup) (hc : (c.map QuoteRow.id).Nodup)
    (ds : List (String × Decision)) (st st' : MergeQuotesState)
    (hgo : mergeQuotesGo m c st ds = .ok st')
    (hds : ∀ kv ∈ ds, alookup kv.1 (analyze_quote_overlaps m c) = some kv.2)
    (k : String) (o : Origin) (p : QuoteProj)
    (hp : alookup k (quotesProjDict (originDB m c o)) = some p)
    (hk : ∀ kv ∈ ds, kv.1 ≠ k) :
    alookup (mapKey o p.id) st'.mapping = alookup (mapKey o p.id) st.mapping := by
  refine mergeQuotesGo_mapping_frame ds st st' _ hgo ?_
  intro kv hkv
  have hkvlk := hds kv hkv
  constructor
  · intro heq
    have hw := analyze_winner_lookup hkvlk
    exact hk kv hkv (mapKey_clash hm hc hp hw heq).symm
  · intro lq hlq heq
    exact hk kv hkv (mapKey_clash hm hc hp hlq heq).symm

theorem analyze_good_winner {m c : List QuoteRow}
    (hm : (m.map QuoteRow.id).Nodup) (hc : (c.map QuoteRow.id).Nodup) :
    ∀ kv ∈ analyze_quote_overlaps m c,
      ∃ r, findById (originDB m c kv.2.winner) kv.2.winner_data.id = some r ∧
        r.quote_no = kv.1 := by
  intro kv hkv
  obtain ⟨kk, dd⟩ := kv
  have hlk := alookup_of_mem_nodup (analyze_keys_nodup m c) hkv
  have hw := analyze_winner_lookup hlk
  obtain ⟨r, hr, hrk, hp⟩ := quotesProjDict_lookup_spec hw
  refine ⟨r, ?_, hrk⟩
  have hdb : (((originDB m c dd.winner).map QuoteRow.id).Nodup) := by
    cases dd.winner
    · exact hm
    · exact hc
  rw [hp]
  exact findById_of_mem hdb hr

theorem mem_analyze_keys_iff {m c : List QuoteRow} {k : String} :
    k ∈ (analyze_quote_overlaps m c).map Prod.fst ↔
      k ∈ m.map QuoteRow.quote_no ∨ k ∈ c.map QuoteRow.quote_no := by
  rw [analyze_keys]
  simp only [List.mem_append, mem_overlappingKeys, mem_mainOnlyKeys, mem_copyOnlyKeys,
    mem_keys_quotesProjDict]
  tauto

theorem execute_merge_ok_inv {main copy : SourceDB} {db : MergedDB}
    (h : execute_merge main copy = .ok db) :
    ∃ st t v n ev,
      merge_quotes main.quotes copy.quotes
        (analyze_quote_overlaps main.quotes copy.quotes) = .ok st ∧
      merge_related_table tasksColumns main.tasks copy.tasks st.mapping = .ok t ∧
      merge_related_table vendorQuotesColumns main.vendor_quotes copy.vendor_quotes
        st.mapping = .ok v ∧
      merge_related_table notesColumns main.notes copy.notes st.mapping = .ok n ∧
      merge_related_table eventsColumns main.events copy.events st.mapping = .ok ev ∧
      db = ⟨st.outQuotes, t.out, v.out, n.out, ev.out,
        main.default_tasks.map
          (fun r => ⟨r.label, r.sort_order, r.is_separator, r.created_at⟩)⟩ := by
  unfold execute_merge at h
  dsimp only at h
  rcases h1 : merge_quotes main.quotes copy.quotes
      (analyze_quote_overlaps main.quotes copy.quotes) with e | st <;> simp only [h1] at h
  · exact Except.noConfusion h
  rcases h2 : merge_related_table tasksColumns main.tasks copy.tasks st.mapping
    with e | t <;> simp only [h2] at h
  · exact Except.noConfusion h
  rcases h3 : merge_related_table vendorQuotesColumns main.vendor_quotes copy.vendor_quotes
      st.mapping with e | v <;> simp only [h3] at h
  · exact Except.noConfusion h
  rcases h4 : merge_related_table notesColumns main.notes copy.notes st.mapping
    with e | n <;> simp only [h4] at h
  · exact Except.noConfusion h
  rcases h5 : merge_related_table eventsColumns main.events copy.events st.mapping
    with e | ev <;> simp only [h5] at h
  · exact Except.noConfusion h
  exact ⟨st, t, v, n, ev, rfl, h2, h3, h4, h5, (Except.ok.inj h).symm⟩

theorem zip_map_self {α β : Type} (f : α → β) :
    ∀ l : List α, l.zip (l.map f) = l.map (fun a => (a, f a))
  | [] => rfl
  | a :: l => by simp only [List.map_cons, List.zip_cons_cons, zip_map_self f l]

theorem buildValues_eq_of_total {row : RelRow} {newId : Nat} {columns : List String}
    (h : ∀ col ∈ columns, col = "quote_id" ∨ (alookup col row).isSome) :
    buildValues row newId columns = some (columns.map (fun col =>
      if col = "quote_id" then Val.int (Int.ofNat newId)
      else (alookup col row).getD Val.null)) := by
  induction columns with
  | nil => rfl
  | cons c cs ih =>
    have ihcs := ih (fun col hcol => h col (List.mem_cons_of_mem _ hcol))
    by_cases hc : c = "quote_id"
    · simp only [buildValues, if_pos hc, ihcs, List.map_cons]
      rfl
    · rcases h c (List.mem_cons_self _ _) with hc' | hsome
      · exact absurd hc' hc
      · rcases he : alookup c row with _ | v
        · rw [he] at hsome
          simp at hsome
        · simp only [buildValues, if_neg hc, he, ihcs, List.map_cons, Option.getD_some]
          rfl

theorem relRowStep_skip {dbName : String} {columns : List String} {mapping : IdMap}
    {st : RelState} {row : RelRow} {qv : Val}
    (hq : alookup "quote_id" row = some qv)
    (hmap : alookup (dbName ++ "_" ++ pyStr qv) mapping = none) :
    relRowStep dbName columns mapping st row = .ok st := by
  simp only [relRowStep, hq, hmap]

theorem relRowStep_dedup {dbName : String} {columns : List String} {mapping : IdMap}
    {st : RelState} {row : RelRow} {qv : Val} {info : MapVal}
    (hq : alookup "quote_id" row = some qv)
    (hmap : alookup (dbName ++ "_" ++ pyStr qv) mapping = some info)
    (hwin : info.is_winner = false) :
    relRowStep dbName columns mapping st row =
      .ok ⟨st.out, st.imported, st.dedup + 1⟩ := by
  simp only [relRowStep, hq, hmap, hwin, Bool.false_eq_true, if_false]

theorem relRowStep_insert {dbName : String} {columns : List String} {mapping : IdMap}
    {st : RelState} {row : RelRow} {qv : Val} {info : MapVal} {vals : List Val}
    (hq : alookup "quote_id" row = some qv)
    (hmap : alookup (dbName ++ "_" ++ pyStr qv) mapping = some info)
    (hwin : info.is_winner = true)
    (hv : buildValues row info.new_id columns = some vals) :
    relRowStep dbName columns mapping st row =
      .ok ⟨st.out ++ [columns.zip vals], st.imported + 1, st.dedup⟩ := by
  simp only [relRowStep, hq, hmap, hwin, if_true, hv]

theorem relRowStep_err {dbName : String} {columns : List String} {mapping : IdMap}
    {st : RelState} {row : RelRow}
    (hq : alookup "quote_id" row = none) :
    relRowStep dbName columns mapping st row =
      .error "IndexError: No item with that key" := by
  unfold relRowStep
  rw [hq]

theorem relRowStep_out_inv {dbName : String} {cs : List String} {mapping : IdMap}
    {st st' : RelState} {row : RelRow}
    (h : relRowStep dbName ("quote_id" :: cs) mapping st row = .ok st') :
    st'.out = st.out ∨
      ∃ x key mv, st'.out = st.out ++ [x] ∧ alookup key mapping = some mv ∧
        alookup "quote_id" x = some (Val.int (Int.ofNat mv.new_id)) := by
  rcases hq : alookup "quote_id" row with _ | qv
  · rw [relRowStep_err hq] at h
    exact Except.noConfusion h
  rcases hmap : alookup (dbName ++ "_" ++ pyStr qv) mapping with _ | info
  · rw [relRowStep_skip hq hmap] at h
    obtain rfl := (Except.ok.inj h).symm
    exact Or.inl rfl
  rcases hwin : info.is_winner with _ | _
  · rw [relRowStep_dedup hq hmap hwin] at h
    obtain rfl := (Except.ok.inj h).symm
    exact Or.inl rfl
  · rcases hv : buildValues row info.new_id ("quote_id" :: cs) with _ | vals
    · simp only [relRowStep, hq, hmap, hwin, if_true, hv] at h
      exact Except.noConfusion h
    · rw [relRowStep_insert hq hmap hwin hv] at h
      obtain rfl := (Except.ok.inj h).symm
      refine Or.inr ⟨("quote_id" :: cs).zip vals, dbName ++ "_" ++ pyStr qv, info, rfl,
        hmap, ?_⟩
      simp only [buildValues, if_pos rfl] at hv
      rcases hv2 : buildValues row info.new_id cs with _ | vs
      · rw [hv2] at hv
        exact Option.noConfusion hv
      · rw [hv2] at hv
        obtain rfl := (Option.some.inj hv).symm
        simp [List.zip_cons_cons, alookup]

theorem mergeRelGo_out_inv {dbName : String} {cs : List String} {mapping : IdMap} :
    ∀ (rows : List RelRow) (st st' : RelState),
      mergeRelGo dbName ("quote_id" :: cs) mapping st rows = .ok st' →
      ∀ x ∈ st'.out, x ∈ st.out ∨
        ∃ key mv, alookup key mapping = some mv ∧
          alookup "quote_id" x = some (Val.int (Int.ofNat mv.new_id)) := by
  intro rows
  induction rows with
  | nil =>
    intro st st' h x hx
    obtain rfl := (Except.ok.inj h).symm
    exact Or.inl hx
  | cons row rows ih =>
    intro st st' h x hx
    rw [show mergeRelGo dbName ("quote_id" :: cs) mapping st (row :: rows) =
      (match relRowStep dbName ("quote_id" :: cs) mapping st row with
        | .error e => .error e
        | .ok st1 => mergeRelGo dbName ("quote_id" :: cs) mapping st1 rows) from rfl] at h
    rcases hstep : relRowStep dbName ("quote_id" :: cs) mapping st row with e | st1 <;>
      rw [hstep] at h
    · exact Except.noConfusion h
    · rcases ih st1 st' h x hx with hin | hnew
      · rcases relRowStep_out_inv hstep with hout | ⟨y, key, mv, hout, hkey, hqid⟩
        · rw [hout] at hin
          exact Or.inl hin
        · rw [hout] at hin
          rcases List.mem_append.mp hin with hin' | hin'
          · exact Or.inl hin'
          · obtain rfl := List.mem_singleton.mp hin'
            exact Or.inr ⟨key, mv, hkey, hqid⟩
      · exact Or.inr hnew

theorem merge_related_table_out_inv {cs : List String} {mapping : IdMap}
    {mainRows copyRows : List RelRow} {st : RelState}
    (h : merge_related_table ("quote_id" :: cs) mainRows copyRows mapping = .ok st) :
    ∀ x ∈ st.out, ∃ key mv, alookup key mapping = some mv ∧
      alookup "quote_id" x = some (Val.int (Int.ofNat mv.new_id)) := by
  unfold merge_related_table at h
  rcases h1 : mergeRelGo "main" ("quote_id" :: cs) mapping ⟨[], 0, 0⟩ mainRows
    with e | st1 <;> rw [h1] at h
  · exact Except.noConfusion h
  · intro x hx
    rcases mergeRelGo_out_inv copyRows st1 st h x hx with hin | hnew
    · rcases mergeRelGo_out_inv mainRows ⟨[], 0, 0⟩ st1 h1 x hin with hin' | hnew'
      · simp at hin'
      · exact hnew'
    · exact hnew

theorem buildValues_eq_fk (row : RelRow) (newId : Nat) :
    ∀ columns : List String,
      buildValuesFk "quote_id" row newId columns = buildValues row newId columns
  | [] => rfl
  | c :: cs => by
    simp only [buildValues, buildValuesFk, buildValues_eq_fk row newId cs]

theorem relRowStep_eq_fk (dbName : String) (columns : List String) (mapping : IdMap)
    (st : RelState) (row : RelRow) :
    relRowStepFk "quote_id" dbName columns mapping st row =
      relRowStep dbName columns mapping st row := by
  simp only [relRowStep, relRowStepFk, buildValues_eq_fk]

theorem mergeRelGo_eq_fk (dbName : String) (columns : List String) (mapping : IdMap) :
    ∀ (rows : List RelRow) (st : RelState),
      mergeRelGoFk "quote_id" dbName columns mapping st rows =
        mergeRelGo dbName columns mapping st rows
  | [], st => rfl
  | row :: rows, st => by
    rw [show mergeRelGoFk "quote_id" dbName columns mapping st (row :: rows) =
      (match relRowStepFk "quote_id" dbName columns mapping st row with
        | Except.error e => Except.error e
        | Except.ok st1 => mergeRelGoFk "quote_id" dbName columns mapping st1 rows) from rfl,
      show mergeRelGo dbName columns mapping st (row :: rows) =
      (match relRowStep dbName columns mapping st row with
        | Except.error e => Except.error e
        | Except.ok st1 => mergeRelGo dbName columns mapping st1 rows) from rfl,
      relRowStep_eq_fk]
    rcases relRowStep dbName columns mapping st row with e | st1
    · rfl
    · exact mergeRelGo_eq_fk dbName columns mapping rows st1

/-- Claim C1: for a business key present in both sources, each side's
effective timestamp is its `updated_at` if present else its `created_at`,
the copy row wins exactly when its effective timestamp is strictly greater,
and on equality (or less) the main (reference) row wins. -/
theorem spec_c1 (mainDB copyDB : List QuoteRow) (k : String) (mp cp : QuoteProj)
    (hm : alookup k (quotesProjDict mainDB) = some mp)
    (hc : alookup k (quotesProjDict copyDB) = some cp) :
    ∃ d, alookup k (analyze_quote_overlaps mainDB copyDB) = some d ∧
      d.status = "overlapping" ∧
      (cp.updated_at.getD cp.created_at > mp.updated_at.getD mp.created_at →
        d.winner = Origin.copy ∧ d.winner_data = cp) ∧
      (¬cp.updated_at.getD cp.created_at > mp.updated_at.getD mp.created_at →
        d.winner = Origin.main ∧ d.winner_data = mp) := by
  refine ⟨overlapDecision mp cp, analyze_lookup_overlap hm hc, ?_, ?_, ?_⟩
  · by_cases hw : cp.updated_at.getD cp.created_at > mp.updated_at.getD mp.created_at
    · rw [overlapDecision_pos hw]
    · rw [overlapDecision_neg hw]
  · intro hw
    rw [overlapDecision_pos hw]
    exact ⟨rfl, rfl⟩
  · intro hw
    rw [overlapDecision_neg hw]
    exact ⟨rfl, rfl⟩

/-- Witness for C1 at the concrete sources `mainW`/`copyW` on key Q1. -/
theorem spec_c1_witness :
    alookup "Q1" (quotesProjDict mainW.quotes) = some ⟨1, "Q1", none, 5⟩ ∧
    alookup "Q1" (quotesProjDict copyW.quotes) = some ⟨7, "Q1", none, 9⟩ ∧
    (∃ d, alookup "Q1" (analyze_quote_overlaps mainW.quotes copyW.quotes) = some d ∧
      d.status = "overlapping" ∧
      ((9 : Nat) > 5 → d.winner = Origin.copy ∧
        d.winner_data = (⟨7, "Q1", none, 9⟩ : QuoteProj)) ∧
      (¬(9 : Nat) > 5 → d.winner = Origin.main ∧
        d.winner_data = (⟨1, "Q1", none, 5⟩ : QuoteProj))) :=
  ⟨by decide, by decide,
    spec_c1 mainW.quotes copyW.quotes "Q1" ⟨1, "Q1", none, 5⟩ ⟨7, "Q1", none, 9⟩
      (by decide) (by decide)⟩

/-- Claim C2: given sources with unique synthetic ids, every business key
appearing in at least one source appears in the output quotes table exactly
once, keys in neither source do not appear, and the output quote count is
|unique-to-main| + |unique-to-copy| + |overlapping|. -/
theorem spec_c2 (main copy : SourceDB) (db : MergedDB)
    (hm : (main.quotes.map QuoteRow.id).Nodup)
    (hc : (copy.quotes.map QuoteRow.id).Nodup)
    (h : execute_merge main copy = .ok db) :
    (∀ k : String,
      (db.quotes.map OutQuoteRow.quote_no).count k =
        if k ∈ main.quotes.map QuoteRow.quote_no ∨ k ∈ copy.quotes.map QuoteRow.quote_no
        then 1 else 0) ∧
    db.quotes.length = (mainOnlyKeys main.quotes copy.quotes).length +
      (copyOnlyKeys main.quotes copy.quotes).length +
      (overlappingKeys main.quotes copy.quotes).length := by
  obtain ⟨st, t, v, n, ev, hok, _, _, _, _, rfl⟩ := execute_merge_ok_inv h
  dsimp only
  obtain ⟨st2, hgo, hmap⟩ :=
    mergeQuotesGo_ok_map (analyze_quote_overlaps main.quotes copy.quotes) ⟨[], [], 0, 0⟩
      (analyze_good_winner hm hc)
  have hst : st = st2 := Except.ok.inj (hok.symm.trans hgo)
  subst hst
  have hqmap : st.outQuotes.map OutQuoteRow.quote_no =
      (analyze_quote_overlaps main.quotes copy.quotes).map Prod.fst := by
    rw [hmap]
    simp
  constructor
  · intro k
    by_cases hk : k ∈ main.quotes.map QuoteRow.quote_no ∨
      k ∈ copy.quotes.map QuoteRow.quote_no
    · rw [if_pos hk, hqmap]
      exact List.count_eq_one_of_mem (analyze_keys_nodup _ _) (mem_analyze_keys_iff.mpr hk)
    · rw [if_neg hk, hqmap]
      exact List.count_eq_zero.mpr (fun hmem => hk (mem_analyze_keys_iff.mp hmem))
  · have hlen := congrArg List.length hqmap
    simp only [List.length_map] at hlen
    have h2 := congrArg List.length (analyze_keys main.quotes copy.quotes)
    simp only [List.length_map, List.length_append] at h2
    omega

/-- Witness for C2 at the concrete sources `mainW`/`copyW`. -/
theorem spec_c2_witness :
    (mainW.quotes.map QuoteRow.id).Nodup ∧ (copyW.quotes.map QuoteRow.id).Nodup ∧
    execute_merge mainW copyW = .ok (execute_merge_committed mainW copyW) ∧
    ((∀ k : String,
      ((execute_merge_committed mainW copyW).quotes.map OutQuoteRow.quote_no).count k =
        if k ∈ mainW.quotes.map QuoteRow.quote_no ∨ k ∈ copyW.quotes.map QuoteRow.quote_no
        then 1 else 0) ∧
    (execute_merge_committed mainW copyW).quotes.length =
      (mainOnlyKeys mainW.quotes copyW.quotes).length +
      (copyOnlyKeys mainW.quotes copyW.quotes).length +
      (overlappingKeys mainW.quotes copyW.quotes).length) :=
  ⟨by decide, by decide, by rfl,
    spec_c2 mainW copyW (execute_merge_committed mainW copyW)
      (by decide) (by decide) (by rfl)⟩

/-- Claim C3: for an overlapping business key whose loser row is found by
business-key lookup, the ID-remap table maps the winner's (origin,
original-id) key and the loser's (origin, original-id) key to the same new
id, flagged is-winner true for the winner and false for the loser. -/
theorem spec_c3 (m c : List QuoteRow)
    (hm : (m.map QuoteRow.id).Nodup) (hc : (c.map QuoteRow.id).Nodup)
    (st : MergeQuotesState)
    (hok : merge_quotes m c (analyze_quote_overlaps m c) = .ok st)
    (k : String) (d : Decision)
    (hd : alookup k (analyze_quote_overlaps m c) = some d)
    (hov : d.status = "overlapping")
    (lq : QuoteProj)
    (hlq : alookup k (quotesProjDict (originDB m c (otherOrigin d.winner))) = some lq) :
    ∃ n, alookup (mapKey d.winner d.winner_data.id) st.mapping = some ⟨n, k, true⟩ ∧
      alookup (mapKey (otherOrigin d.winner) lq.id) st.mapping = some ⟨n, k, false⟩ := by
  have hmem : (k, d) ∈ analyze_quote_overlaps m c := alookup_mem hd
  obtain ⟨ds₁, ds₂, hsplit⟩ := List.append_of_mem hmem
  unfold merge_quotes at hok
  rw [hsplit, mergeQuotesGo_append] at hok
  rcases hgo1 : mergeQuotesGo m c ⟨[], [], 0, 0⟩ ds₁ with e | st1 <;> simp only [hgo1] at hok
  · exact Except.noConfusion hok
  rw [show mergeQuotesGo m c st1 ((k, d) :: ds₂) =
    (match mergeQuoteStep m c st1 (k, d) with
      | Except.error e => Except.error e
      | Except.ok st2 => mergeQuotesGo m c st2 ds₂) from rfl] at hok
  rcases hstep : mergeQuoteStep m c st1 (k, d) with e | st2 <;> simp only [hstep] at hok
  · exact Except.noConfusion hok
  rcases hr : findById (originDB m c d.winner) d.winner_data.id with _ | r
  · rw [mergeQuoteStep_eq_err hr] at hstep
    exact Except.noConfusion hstep
  rw [mergeQuoteStep_eq_overlap_found hr hov hlq] at hstep
  obtain rfl := Except.ok.inj hstep
  have hnd := analyze_keys_nodup m c
  rw [hsplit] at hnd
  have hnd2 : k ∉ ds₂.map Prod.fst := by
    simp only [List.map_append, List.map_cons] at hnd
    have hmid := (List.nodup_cons.mp (List.nodup_middle.mp hnd)).1
    intro hmem2
    exact hmid (List.mem_append.mpr (Or.inr hmem2))
  have hds₂ : ∀ kv ∈ ds₂, alookup kv.1 (analyze_quote_overlaps m c) = some kv.2 := by
    intro kv hkv
    apply alookup_of_mem_nodup (analyze_keys_nodup m c)
    rw [hsplit]
    exact List.mem_append.mpr (Or.inr (List.mem_cons_of_mem _ hkv))
  have hk2 : ∀ kv ∈ ds₂, kv.1 ≠ k :=
    fun kv hkv hq => hnd2 (hq ▸ List.mem_map.mpr ⟨kv, hkv, rfl⟩)
  have hwl := analyze_winner_lookup hd
  have hne : mapKey d.winner d.winner_data.id ≠ mapKey (otherOrigin d.winner) lq.id :=
    fun heq => otherOrigin_ne d.winner (mapKey_inj heq).1.symm
  have hpres1 := mergeQuotesGo_preserve_written hm hc ds₂ _ st hok hds₂
    k d.winner d.winner_data hwl hk2
  have hpres2 := mergeQuotesGo_preserve_written hm hc ds₂ _ st hok hds₂
    k (otherOrigin d.winner) lq hlq hk2
  refine ⟨st1.outQuotes.length + 1, ?_, ?_⟩
  · rw [hpres1]
    dsimp only
    rw [alookup_upsert_ne _ _ _ _ hne, alookup_upsert_self]
  · rw [hpres2]
    dsimp only
    rw [alookup_upsert_self]

/-- Witness for C3 at the concrete sources `mainW`/`copyW` on key Q1, whose
copy row wins the overlap. -/
theorem spec_c3_witness :
    (mainW.quotes.map QuoteRow.id).Nodup ∧ (copyW.quotes.map QuoteRow.id).Nodup ∧
    merge_quotes mainW.quotes copyW.quotes
      (analyze_quote_overlaps mainW.quotes copyW.quotes) = .ok stW ∧
    alookup "Q1" (analyze_quote_overlaps mainW.quotes copyW.quotes) =
      some ⟨"overlapping", Origin.copy, ⟨7, "Q1", none, 9⟩⟩ ∧
    alookup "Q1" (quotesProjDict (originDB mainW.quotes copyW.quotes
      (otherOrigin Origin.copy))) = some ⟨1, "Q1", none, 5⟩ ∧
    (∃ n, alookup (mapKey Origin.copy 7) stW.mapping = some ⟨n, "Q1", true⟩ ∧
      alookup (mapKey Origin.main 1) stW.mapping = some ⟨n, "Q1", false⟩) :=
  ⟨by decide, by decide, by rfl, by decide, by decide,
   spec_c3 mainW.quotes copyW.quotes (by decide) (by decide) stW (by rfl) "Q1"
     ⟨"overlapping", Origin.copy, ⟨7, "Q1", none, 9⟩⟩ (by decide) rfl
     ⟨1, "Q1", none, 5⟩ (by decide)⟩

/-- Claim C4: after a successful merge, every row of every dependent table
in the output has a `quote_id` equal to the synthetic id (1-based position)
of an existing output quote row — no orphans. -/
theorem spec_c4 (main copy : SourceDB) (db : MergedDB)
    (h : execute_merge main copy = .ok db) :
    ∀ x : RelRow,
      (x ∈ db.tasks ∨ x ∈ db.vendor_quotes ∨ x ∈ db.notes ∨ x ∈ db.events) →
      ∃ n : Nat, alookup "quote_id" x = some (Val.int (Int.ofNat n)) ∧
        1 ≤ n ∧ n ≤ db.quotes.length := by
  obtain ⟨st, t, v, n, ev, hok, ht, hvq, hn, hev, rfl⟩ := execute_merge_ok_inv h
  dsimp only
  have hbound := mergeQuotesGo_mapping_bound
    (analyze_quote_overlaps main.quotes copy.quotes) ⟨[], [], 0, 0⟩ st hok
    (by intro p hp; simp at hp)
  intro x hx
  have hfind : ∃ key mv, alookup key st.mapping = some mv ∧
      alookup "quote_id" x = some (Val.int (Int.ofNat mv.new_id)) := by
    rcases hx with hx | hx | hx | hx
    · exact merge_related_table_out_inv ht x hx
    · exact merge_related_table_out_inv hvq x hx
    · exact merge_related_table_out_inv hn x hx
    · exact merge_related_table_out_inv hev x hx
  obtain ⟨key, mv, hkey, hqid⟩ := hfind
  have hb := hbound (key, mv) (alookup_mem hkey)
  exact ⟨mv.new_id, hqid, hb.1, hb.2⟩

/-- Witness for C4 at the concrete sources `mainW`/`copyW`. -/
theorem spec_c4_witness :
    execute_merge mainW copyW = .ok (execute_merge_committed mainW copyW) ∧
    (∀ x : RelRow,
      (x ∈ (execute_merge_committed mainW copyW).tasks ∨
        x ∈ (execute_merge_committed mainW copyW).vendor_quotes ∨
        x ∈ (execute_merge_committed mainW copyW).notes ∨
        x ∈ (execute_merge_committed mainW copyW).events) →
      ∃ n : Nat, alookup "quote_id" x = some (Val.int (Int.ofNat n)) ∧
        1 ≤ n ∧ n ≤ (execute_merge_committed mainW copyW).quotes.length) :=
  ⟨by rfl, spec_c4 mainW copyW (execute_merge_committed mainW copyW) (by rfl)⟩

/-- Claim C5: for a dependent row whose (origin, foreign-key value) pair is
absent from the remap table, the row is skipped with no count change; if
present with is-winner true, the row is inserted with `quote_id` replaced by
the remapped new id and every other column copied verbatim by name, and the
imported count is incremented; if present with is-winner false, the row is
skipped and the deduplicated count is incremented. -/
theorem spec_c5 (dbName : String) (columns : List String) (mapping : IdMap)
    (st : RelState) (row : RelRow) (qv : Val)
    (hq : alookup "quote_id" row = some qv)
    (hcols : ∀ col ∈ columns, col = "quote_id" ∨ (alookup col row).isSome) :
    (alookup (dbName ++ "_" ++ pyStr qv) mapping = none →
      relRowStep dbName columns mapping st row = .ok st) ∧
    (∀ info : MapVal, alookup (dbName ++ "_" ++ pyStr qv) mapping = some info →
      (info.is_winner = true →
        relRowStep dbName columns mapping st row = .ok
          ⟨st.out ++ [columns.map (fun col => (col,
              if col = "quote_id" then Val.int (Int.ofNat info.new_id)
              else (alookup col row).getD Val.null))],
            st.imported + 1, st.dedup⟩) ∧
      (info.is_winner = false →
        relRowStep dbName columns mapping st row =
          .ok ⟨st.out, st.imported, st.dedup + 1⟩)) := by
  refine ⟨fun hmap => relRowStep_skip hq hmap,
    fun info hmap => ⟨fun hwin => ?_, fun hwin => relRowStep_dedup hq hmap hwin⟩⟩
  have hbv := @buildValues_eq_of_total row info.new_id columns hcols
  rw [relRowStep_insert hq hmap hwin hbv, zip_map_self]

/-- Witness for C5 at a concrete winning task row. -/
theorem spec_c5_witness :
    alookup "quote_id" [("quote_id", Val.int 1), ("label", Val.text "a"),
      ("done", Val.int 0), ("is_separator", Val.int 0)] = some (Val.int 1) ∧
    (∀ col ∈ tasksColumns, col = "quote_id" ∨
      (alookup col [("quote_id", Val.int 1), ("label", Val.text "a"),
        ("done", Val.int 0), ("is_separator", Val.int 0)]).isSome) ∧
    ((alookup ("main" ++ "_" ++ pyStr (Val.int 1))
        [("main_1", (⟨1, "Q1", true⟩ : MapVal))] = none →
      relRowStep "main" tasksColumns [("main_1", ⟨1, "Q1", true⟩)] ⟨[], 0, 0⟩
        [("quote_id", Val.int 1), ("label", Val.text "a"),
         ("done", Val.int 0), ("is_separator", Val.int 0)] = .ok ⟨[], 0, 0⟩) ∧
    (∀ info : MapVal, alookup ("main" ++ "_" ++ pyStr (Val.int 1))
        [("main_1", (⟨1, "Q1", true⟩ : MapVal))] = some info →
      (info.is_winner = true →
        relRowStep "main" tasksColumns [("main_1", ⟨1, "Q1", true⟩)] ⟨[], 0, 0⟩
          [("quote_id", Val.int 1), ("label", Val.text "a"),
           ("done", Val.int 0), ("is_separator", Val.int 0)] = .ok
          ⟨([] : List RelRow) ++ [tasksColumns.map (fun col => (col,
              if col = "quote_id" then Val.int (Int.ofNat info.new_id)
              else (alookup col [("quote_id", Val.int 1), ("label", Val.text "a"),
                ("done", Val.int 0), ("is_separator", Val.int 0)]).getD Val.null))],
            0 + 1, 0⟩) ∧
      (info.is_winner = false →
        relRowStep "main" tasksColumns [("main_1", ⟨1, "Q1", true⟩)] ⟨[], 0, 0⟩
          [("quote_id", Val.int 1), ("label", Val.text "a"),
           ("done", Val.int 0), ("is_separator", Val.int 0)] =
          .ok ⟨[], 0, 0 + 1⟩))) :=
  ⟨by decide, by decide,
    spec_c5 "main" tasksColumns [("main_1", ⟨1, "Q1", true⟩)] ⟨[], 0, 0⟩
      [("quote_id", Val.int 1), ("label", Val.text "a"),
       ("done", Val.int 0), ("is_separator", Val.int 0)] (Val.int 1)
      (by decide) (by decide)⟩

/-- Claim C6: for an overlapping key whose loser row is not found by
business-key lookup, the step does not raise: the winner's row is still
inserted and counted as merged, the deduplicated counter is unchanged, and
the step behaves exactly as if the key were unique to the winner. -/
theorem spec_c6 (mainDB copyDB : List QuoteRow) (st : MergeQuotesState)
    (k : String) (d : Decision) (r : QuoteRow)
    (hov : d.status = "overlapping")
    (hr : findById (originDB mainDB copyDB d.winner) d.winner_data.id = some r)
    (hlq : alookup k
      (quotesProjDict (originDB mainDB copyDB (otherOrigin d.winner))) = none) :
    mergeQuoteStep mainDB copyDB st (k, d) = .ok ⟨st.outQuotes ++ [insertedQuote r],
      upsert st.mapping (mapKey d.winner d.winner_data.id)
        ⟨st.outQuotes.length + 1, k, true⟩,
      st.merged + 1, st.dedup⟩ ∧
    mergeQuoteStep mainDB copyDB st (k, d) =
      mergeQuoteStep mainDB copyDB st (k,
        ⟨(match d.winner with | Origin.main => "main_only" | Origin.copy => "copy_only"),
         d.winner, d.winner_data⟩) := by
  have h1 := @mergeQuoteStep_eq_overlap_missing mainDB copyDB st k d r hr hov hlq
  have hov' : ¬(⟨(match d.winner with
      | Origin.main => "main_only" | Origin.copy => "copy_only"),
      d.winner, d.winner_data⟩ : Decision).status = "overlapping" := by
    cases d.winner
    · exact fun hcon =>
        absurd (show ("main_only" : String) = "overlapping" from hcon) (by decide)
    · exact fun hcon =>
        absurd (show ("copy_only" : String) = "overlapping" from hcon) (by decide)
  refine ⟨h1, ?_⟩
  rw [h1, @mergeQuoteStep_eq_unique mainDB copyDB st k
    ⟨(match d.winner with
      | Origin.main => "main_only" | Origin.copy => "copy_only"),
      d.winner, d.winner_data⟩ r hr hov']

/-- Witness for C6: an overlapping decision for Q1 whose loser side
(the copy database) no longer contains the key. -/
theorem spec_c6_witness :
    (⟨"overlapping", Origin.main, ⟨1, "Q1", none, 5⟩⟩ : Decision).status =
      "overlapping" ∧
    findById (originDB [wq 1 "Q1" 5 none] []
      (⟨"overlapping", Origin.main, ⟨1, "Q1", none, 5⟩⟩ : Decision).winner) 1 =
      some (wq 1 "Q1" 5 none) ∧
    alookup "Q1" (quotesProjDict (originDB [wq 1 "Q1" 5 none] []
      (otherOrigin Origin.main))) = none ∧
    (mergeQuoteStep [wq 1 "Q1" 5 none] [] ⟨[], [], 0, 0⟩
      ("Q1", ⟨"overlapping", Origin.main, ⟨1, "Q1", none, 5⟩⟩) =
      .ok ⟨([] : List OutQuoteRow) ++ [insertedQuote (wq 1 "Q1" 5 none)],
        upsert ([] : IdMap) (mapKey Origin.main 1) ⟨0 + 1, "Q1", true⟩,
        0 + 1, 0⟩ ∧
    mergeQuoteStep [wq 1 "Q1" 5 none] [] ⟨[], [], 0, 0⟩
      ("Q1", ⟨"overlapping", Origin.main, ⟨1, "Q1", none, 5⟩⟩) =
      mergeQuoteStep [wq 1 "Q1" 5 none] [] ⟨[], [], 0, 0⟩
        ("Q1", ⟨(match Origin.main with
          | Origin.main => "main_only" | Origin.copy => "copy_only"),
          Origin.main, ⟨1, "Q1", none, 5⟩⟩)) :=
  ⟨by decide, by decide, by decide,
    spec_c6 [wq 1 "Q1" 5 none] [] ⟨[], [], 0, 0⟩ "Q1"
      ⟨"overlapping", Origin.main, ⟨1, "Q1", none, 5⟩⟩ (wq 1 "Q1" 5 none)
      (by decide) (by decide) (by decide)⟩

/-- Claim C7: if any exception is raised during the insertion span, the
in-flight output transaction is rolled back — the durable output database
keeps no rows written in that span — and no successful result is produced;
the error value itself is what `execute_merge` returns to the caller. -/
theorem spec_c7 (main copy : SourceDB) (e : String)
    (h : execute_merge main copy = .error e) :
    execute_merge_committed main copy = emptyMergedDB ∧
    ∀ db : MergedDB, execute_merge main copy ≠ .ok db := by
  constructor
  · unfold execute_merge_committed
    rw [h]
  · intro db hdb
    rw [h] at hdb
    exact Except.noConfusion hdb

/-- Witness for C7: a task row without a `quote_id` column makes the
dependent-table phase raise, and the committed output is empty. -/
theorem spec_c7_witness :
    execute_merge badMainW copyW = .error "IndexError: No item with that key" ∧
    (execute_merge_committed badMainW copyW = emptyMergedDB ∧
      ∀ db : MergedDB, execute_merge badMainW copyW ≠ .ok db) :=
  ⟨by rfl, spec_c7 badMainW copyW "IndexError: No item with that key" (by rfl)⟩

/-- Claim C8 (amended): the dependent-table merge is one generic procedure,
applied uniformly to any table's introspected columns and rows (no
per-table special-casing), but the foreign-key column name is not a
parameter: the procedure behaves exactly like the spec's parametric one
with the name fixed to the literal `quote_id`. -/
theorem spec_c8 (columns : List String) (mainRows copyRows : List RelRow)
    (mapping : IdMap) :
    merge_related_table_fk "quote_id" columns mainRows copyRows mapping =
      merge_related_table columns mainRows copyRows mapping := by
  unfold merge_related_table merge_related_table_fk
  rw [mergeRelGo_eq_fk]
  rcases mergeRelGo "main" columns mapping ⟨[], 0, 0⟩ mainRows with e | st
  · rfl
  · show mergeRelGoFk "quote_id" "copy" columns mapping st copyRows =
      mergeRelGo "copy" columns mapping st copyRows
    exact mergeRelGo_eq_fk "copy" columns mapping copyRows st

/-- Counterexample for C8 as stated: on a table whose foreign-key column is
named `task_id`, the source procedure does not agree with the procedure
that takes the foreign-key column name as its per-table parameter (the
source raises, since it reads the hard-coded `quote_id` column, while the
parametric procedure imports the row). -/
theorem spec_c8_counterexample :
    merge_related_table ["task_id"] [[("task_id", Val.int 1)]] []
      [("main_1", ⟨1, "Q1", true⟩)] ≠
    merge_related_table_fk "task_id" ["task_id"] [[("task_id", Val.int 1)]] []
      [("main_1", ⟨1, "Q1", true⟩)] := by
  intro h
  rw [show merge_related_table ["task_id"] [[("task_id", Val.int 1)]] []
      [("main_1", ⟨1, "Q1", true⟩)] =
      .error "IndexError: No item with that key" from rfl,
    show merge_related_table_fk "task_id" ["task_id"] [[("task_id", Val.int 1)]] []
      [("main_1", ⟨1, "Q1", true⟩)] =
      .ok ⟨[[("task_id", Val.int 1)]], 1, 0⟩ from rfl] at h
  exact Except.noConfusion h

/-- Claim C9: the output `default_tasks` table is exactly the main
database's `default_tasks` rows (ids dropped, the four columns copied);
rows of the copy database's `default_tasks` never appear. -/
theorem spec_c9 (main copy : SourceDB) (db : MergedDB)
    (h : execute_merge main copy = .ok db) :
    db.default_tasks = main.default_tasks.map
      (fun r => ⟨r.label, r.sort_order, r.is_separator, r.created_at⟩) := by
  obtain ⟨st, t, v, n, ev, _, _, _, _, _, rfl⟩ := execute_merge_ok_inv h
  rfl

/-- Witness for C9 at the concrete sources `mainW`/`copyW` (the copy source
has a `default_tasks` row that does not appear in the output). -/
theorem spec_c9_witness :
    execute_merge mainW copyW = .ok (execute_merge_committed mainW copyW) ∧
    (execute_merge_committed mainW copyW).default_tasks =
      mainW.default_tasks.map
        (fun r => ⟨r.label, r.sort_order, r.is_separator, r.created_at⟩) :=
  ⟨by rfl, spec_c9 mainW copyW (execute_merge_committed mainW copyW) (by rfl)⟩

/-- Claim C10: if some decision's winning row cannot be fetched by its
original id from the winner's source database, the primary-entity merge
returns an exception (it does not skip the key and produce a result). -/
theorem spec_c10 (mainDB copyDB : List QuoteRow)
    (decisions : List (String × Decision))
    (h : ∃ kv ∈ decisions,
      findById (originDB mainDB copyDB kv.2.winner) kv.2.winner_data.id = none) :
    ∃ e, merge_quotes mainDB copyDB decisions = .error e :=
  mergeQuotesGo_error_of_missing decisions ⟨[], [], 0, 0⟩ h

/-- Witness for C10: a decision whose winner row id 5 is absent from the
(empty) winner database. -/
theorem spec_c10_witness :
    (∃ kv ∈ [("Q1", (⟨"main_only", Origin.main, ⟨5, "Q1", none, 0⟩⟩ : Decision))],
      findById (originDB [] [] kv.2.winner) kv.2.winner_data.id = none) ∧
    ∃ e, merge_quotes [] []
      [("Q1", ⟨"main_only", Origin.main, ⟨5, "Q1", none, 0⟩⟩)] = .error e :=
  ⟨by decide, spec_c10 [] [] _ (by decide)⟩
